import Mathlib

/-!
Verification of the SQL front-end (tokenizer + recursive-descent parser)
of the PL-Project-VU repository.  The Rust sources `tokenizer.rs`,
`parser.rs`, `token.rs` and `error.rs` are shallowly embedded below:
characters and tokens are processed over explicit `List`s, the mutable
cursor of the Rust `Parser` becomes suffix passing, machine integers
become `Nat` with the `u64` overflow check made explicit, and fallible
code returns `Except`.
-/

namespace SQL

/-- The closed keyword enumeration of `token.rs`. -/
inductive Keyword where
  | Select | Create | Table | Where | Order | By | Asc | Desc | From
  | And | Or | Not | True | False | Primary | Key | Foreign | References
  | Check | Int | Bool | Varchar | Null | Index | Unique | On
  deriving DecidableEq

/-- The token type of `token.rs`.  `Number` carries a `u64`, embedded as a
`Nat` that the tokenizer keeps below `2 ^ 64` by its explicit overflow
check. -/
inductive Token where
  | Keyword (k : Keyword)
  | Identifier (s : String)
  | String (s : String)
  | Number (n : Nat)
  | Plus | Minus | Star | Divide
  | Equal | NotEqual
  | LessThan | GreaterThan | LessThanOrEqual | GreaterThanOrEqual
  | LeftParentheses | RightParentheses
  | Comma | Semicolon
  | Wildcard
  | Eof
  deriving DecidableEq

/-- The error enumeration of `error.rs`. -/
inductive Error where
  | LexerError (msg : String)
  | ParserError (msg : String)
  | UnexpectedToken (expected : String) (found : String)
  | UnexpectedEOF
  | InvalidVarcharLength (msg : String)
  | MissingFromClause
  | InvalidForeignKey (msg : String)
  deriving DecidableEq

/-- Modelled from the spec: the `UnaryOperator` enumeration of the absent
`statement.rs` (§3 of the spec; its variants are also pinned by the
constructions in `parser.rs`). -/
inductive UnaryOperator where
  | Minus | Plus | Not | Asc | Desc
  deriving DecidableEq

/-- Modelled from the spec: the `BinaryOperator` enumeration of the absent
`statement.rs`. -/
inductive BinaryOperator where
  | Plus | Minus | Multiply | Divide
  | Equal | NotEqual
  | GreaterThan | GreaterThanOrEqual | LessThan | LessThanOrEqual
  | And | Or
  deriving DecidableEq

/-- Modelled from the spec: the `Expression` tree of the absent
`statement.rs`. -/
inductive Expression where
  | Number (n : Nat)
  | String (s : String)
  | Bool (b : Bool)
  | Identifier (s : String)
  | UnaryOperation (operand : Expression) (operator : UnaryOperator)
  | BinaryOperation (left_operand : Expression) (operator : BinaryOperator)
      (right_operand : Expression)
  deriving DecidableEq

/-- Modelled from the spec: the `DBType` enumeration of the absent
`statement.rs`. -/
inductive DBType where
  | Int | Bool | Varchar (length : Nat)
  deriving DecidableEq

/-- Modelled from the spec: the `Constraint` union of the absent
`statement.rs`. -/
inductive Constraint where
  | PrimaryKey
  | NotNull
  | ForeignKey (column : String) (referenced_table : String)
      (referenced_column : String)
  | Check (e : Expression)
  deriving DecidableEq

/-- Modelled from the spec: the `TableColumn` record of the absent
`statement.rs`. -/
structure TableColumn where
  column_name : String
  column_type : DBType
  constraints : List Constraint
  deriving DecidableEq

/-- Modelled from the spec: the `Statement` union of the absent
`statement.rs`.  The Rust field names `from` and `where` are Lean
keywords and appear here as `fromTable` and `whereClause`. -/
inductive Statement where
  | Select (columns : List Expression) (fromTable : String)
      (whereClause : Option Expression) (orderby : List Expression)
  | CreateTable (table_name : String) (column_list : List TableColumn)
  | CreateIndex (is_unique : Bool) (index_name : String)
      (table_name : String) (column_name : String)
  deriving DecidableEq

/-- The keyword table of `tokenizer.rs` (`match identifier.as_str()`),
applied to the upper-cased spelling of a scanned identifier. -/
def keywordOf (s : String) : Option Keyword :=
  match s with
  | "SELECT" => some .Select
  | "CREATE" => some .Create
  | "TABLE" => some .Table
  | "WHERE" => some .Where
  | "ORDER" => some .Order
  | "BY" => some .By
  | "ASC" => some .Asc
  | "DESC" => some .Desc
  | "FROM" => some .From
  | "AND" => some .And
  | "OR" => some .Or
  | "NOT" => some .Not
  | "TRUE" => some .True
  | "FALSE" => some .False
  | "PRIMARY" => some .Primary
  | "KEY" => some .Key
  | "FOREIGN" => some .Foreign
  | "REFERENCES" => some .References
  | "CHECK" => some .Check
  | "INT" => some .Int
  | "BOOL" => some .Bool
  | "VARCHAR" => some .Varchar
  | "NULL" => some .Null
  | "INDEX" => some .Index
  | "UNIQUE" => some .Unique
  | "ON" => some .On
  | _ => none

/-- The derived Rust `Debug` rendering of a `Keyword`, as produced by the
parser's `format!` calls. -/
def Keyword.debug : Keyword → String
  | .Select => "Select"
  | .Create => "Create"
  | .Table => "Table"
  | .Where => "Where"
  | .Order => "Order"
  | .By => "By"
  | .Asc => "Asc"
  | .Desc => "Desc"
  | .From => "From"
  | .And => "And"
  | .Or => "Or"
  | .Not => "Not"
  | .True => "True"
  | .False => "False"
  | .Primary => "Primary"
  | .Key => "Key"
  | .Foreign => "Foreign"
  | .References => "References"
  | .Check => "Check"
  | .Int => "Int"
  | .Bool => "Bool"
  | .Varchar => "Varchar"
  | .Null => "Null"
  | .Index => "Index"
  | .Unique => "Unique"
  | .On => "On"

/-- The derived Rust `Debug` rendering of a `Token`, as produced by the
parser's `format!("{:?}", token)` calls. -/
def tokenDebug : Token → String
  | .Keyword k => "Keyword(" ++ k.debug ++ ")"
  | .Identifier s => "Identifier(\"" ++ s ++ "\")"
  | .String s => "String(\"" ++ s ++ "\")"
  | .Number n => "Number(" ++ toString n ++ ")"
  | .Plus => "Plus"
  | .Minus => "Minus"
  | .Star => "Star"
  | .Divide => "Divide"
  | .Equal => "Equal"
  | .NotEqual => "NotEqual"
  | .LessThan => "LessThan"
  | .GreaterThan => "GreaterThan"
  | .LessThanOrEqual => "LessThanOrEqual"
  | .GreaterThanOrEqual => "GreaterThanOrEqual"
  | .LeftParentheses => "LeftParentheses"
  | .RightParentheses => "RightParentheses"
  | .Comma => "Comma"
  | .Semicolon => "Semicolon"
  | .Wildcard => "Wildcard"
  | .Eof => "Eof"

/-- `Tokenizer::tokenize_string`: scan a string literal after its opening
quote.  Returns the literal's contents together with the characters left
after the closing quote; an unterminated literal consumes everything and
fails. -/
def tokenize_string (quote : Char) : List Char → Except Error String × List Char
  | [] =>
    (.error (.LexerError ("Unterminated string literal starting with "
      ++ String.mk [quote])), [])
  | c :: rest =>
    if c = quote then (.ok "", rest)
    else
      match tokenize_string quote rest with
      | (.ok s, r) => (.ok (String.mk (c :: s.data)), r)
      | (.error e, r) => (.error e, r)

/-- The digit-accumulation loop of `tokenize` for numeric literals: the
checked `u64` arithmetic `number * 10 + digit` fails once the value would
leave `u64` range, leaving the offending digit unconsumed. -/
def scanNumber (n : Nat) : List Char → Except Error Nat × List Char
  | [] => (.ok n, [])
  | c :: rest =>
    if c.isDigit then
      let m := n * 10 + (c.toNat - '0'.toNat)
      if m < 2 ^ 64 then scanNumber m rest
      else (.error (.LexerError "Number too large"), c :: rest)
    else (.ok n, c :: rest)

/-- The identifier-accumulation loop of `tokenize`: a maximal run of ASCII
alphanumerics and underscores, upper-cased while scanning. -/
def scanIdentifier : List Char → String × List Char
  | [] => ("", [])
  | c :: rest =>
    if c.isAlphanum ∨ c = '_' then
      let p := scanIdentifier rest
      (String.mk (c.toUpper :: p.1.data), p.2)
    else ("", c :: rest)

theorem tokenize_string_resid_le (quote : Char) (l : List Char) :
    (tokenize_string quote l).2.length ≤ l.length := by
  induction l with
  | nil => simp [tokenize_string]
  | cons c rest ih =>
    simp only [tokenize_string]
    split
    · simp
    · cases h : tokenize_string quote rest with
      | mk res r =>
        cases res <;> simp_all <;> omega

theorem scanNumber_resid_le (n : Nat) (l : List Char) :
    (scanNumber n l).2.length ≤ l.length := by
  induction l generalizing n with
  | nil => simp [scanNumber]
  | cons c rest ih =>
    simp only [scanNumber]
    split
    · split
      · exact le_trans (ih _) (by simp)
      · simp
    · simp

theorem scanNumber_first_digit (n : Nat) (c : Char) (l : List Char)
    (hc : c.isDigit = true) (hn : n * 10 + (c.toNat - '0'.toNat) < 2 ^ 64) :
    (scanNumber n (c :: l)).2.length ≤ l.length := by
  simp only [scanNumber, hc, if_true, hn]
  exact scanNumber_resid_le _ l

theorem scanIdentifier_resid_le (l : List Char) :
    (scanIdentifier l).2.length ≤ l.length := by
  induction l with
  | nil => simp [scanIdentifier]
  | cons c rest ih =>
    simp only [scanIdentifier]
    split
    · exact le_trans ih (by simp)
    · simp

theorem scanIdentifier_first (c : Char) (l : List Char)
    (hc : c.isAlphanum ∨ c = '_') :
    (scanIdentifier (c :: l)).2.length ≤ l.length := by
  simp only [scanIdentifier, hc, if_true]
  exact scanIdentifier_resid_le l

/-- The outcome of one step of the main scan loop of
`Tokenizer::tokenize`: skip a whitespace character, emit one token
(with the possibly updated `is_after_select` flag), or abort with a
lexical error, each together with the residual unconsumed input. -/
inductive TokStep where
  | skip (r : List Char)
  | emit (t : Token) (newFlag : Bool) (r : List Char)
  | fail (e : Error) (r : List Char)
  deriving DecidableEq

/-- The invariant of one scan step: a skipped or emitted step consumes at
least the current character (its residual is confined to `rest`), and an
emitted token is never the `Eof` sentinel (which only `tokenizeGo`
appends, at the very end). -/
def stepOk (rest : List Char) : TokStep → Prop
  | .skip r => r.length ≤ rest.length
  | .emit t _ r => r.length ≤ rest.length ∧ t ≠ Token.Eof
  | .fail _ _ => True

/-- One iteration of the `while let Some(&c) = self.input.peek()` loop of
`Tokenizer::tokenize` (`tokenizer.rs` lines 49-187), for current
character `c` followed by `rest`, bundled with its `stepOk` invariant.
`flag` is the `is_after_select` field and `acc` the previously emitted
tokens in reverse order (so `acc.head?` is Rust's `tokens.last()`). -/
def tokStepP (c : Char) (rest : List Char) (flag : Bool) (acc : List Token) :
    { st : TokStep // stepOk rest st } :=
  if c = ' ' ∨ c = '\t' ∨ c = '\n' ∨ c = '\r' then
    ⟨.skip rest, Nat.le_refl _⟩
  else if c = '(' then ⟨.emit .LeftParentheses flag rest, Nat.le_refl _, by simp⟩
  else if c = ')' then ⟨.emit .RightParentheses flag rest, Nat.le_refl _, by simp⟩
  else if c = '>' then
    match rest with
    | '=' :: r2 => ⟨.emit .GreaterThanOrEqual flag r2, by simp, by simp⟩
    | r => ⟨.emit .GreaterThan flag r, Nat.le_refl _, by simp⟩
  else if c = '<' then
    match rest with
    | '=' :: r2 => ⟨.emit .LessThanOrEqual flag r2, by simp, by simp⟩
    | r => ⟨.emit .LessThan flag r, Nat.le_refl _, by simp⟩
  else if c = '=' then ⟨.emit .Equal flag rest, Nat.le_refl _, by simp⟩
  else if c = '!' then
    match rest with
    | '=' :: r2 => ⟨.emit .NotEqual flag r2, by simp, by simp⟩
    | r => ⟨.fail (.LexerError "Expected '=' after '!'") r, trivial⟩
  else if c = '*' then
    ⟨.emit (if flag ∧ (∀ t ∈ acc.head?,
        t = Token.Keyword .Select ∨ t = Token.Comma)
      then .Wildcard else .Star) flag rest,
     Nat.le_refl _, by split <;> simp⟩
  else if c = '/' then ⟨.emit .Divide flag rest, Nat.le_refl _, by simp⟩
  else if c = '-' then ⟨.emit .Minus flag rest, Nat.le_refl _, by simp⟩
  else if c = '+' then ⟨.emit .Plus flag rest, Nat.le_refl _, by simp⟩
  else if c = ',' then ⟨.emit .Comma flag rest, Nat.le_refl _, by simp⟩
  else if c = ';' then ⟨.emit .Semicolon flag rest, Nat.le_refl _, by simp⟩
  else if c = '\'' ∨ c = '"' then
    match hx : tokenize_string c rest with
    | (.ok s, r) =>
      ⟨.emit (.String s) flag r,
       by
         have h2 := tokenize_string_resid_le c rest
         rw [hx] at h2
         exact h2,
       by simp⟩
    | (.error e, r) => ⟨.fail e r, trivial⟩
  else if hd : c.isDigit then
    match hx : scanNumber 0 (c :: rest) with
    | (.ok n, r) =>
      ⟨.emit (.Number n) flag r,
       by
         have hlt : (0 : Nat) * 10 + (c.toNat - '0'.toNat) < 2 ^ 64 := by
           have h3 := c.val.toNat_lt
           simp [Char.toNat]
           omega
         have h2 := scanNumber_first_digit 0 c rest hd hlt
         rw [hx] at h2
         exact h2,
       by simp⟩
    | (.error e, r) => ⟨.fail e r, trivial⟩
  else if ha : c.isAlpha ∨ c = '_' then
    match hx : scanIdentifier (c :: rest) with
    | (s, r) =>
      have hr : r.length ≤ rest.length := by
        have hx2 : (c.isAlphanum ∨ c = '_') := by
          rcases ha with h1 | h1
          · exact Or.inl (by simp [Char.isAlphanum, h1])
          · exact Or.inr h1
        have h2 := scanIdentifier_first c rest hx2
        rw [hx] at h2
        exact h2
      match keywordOf s with
      | some .Select => ⟨.emit (.Keyword .Select) true r, hr, by simp⟩
      | some .From => ⟨.emit (.Keyword .From) false r, hr, by simp⟩
      | some k => ⟨.emit (.Keyword k) flag r, hr, by simp⟩
      | none => ⟨.emit (.Identifier s) flag r, hr, by simp⟩
  else ⟨.fail (.LexerError ("Invalid character: " ++ String.mk [c])) (c :: rest),
    trivial⟩

/-- The step function without its invariant. -/
def tokStep (c : Char) (rest : List Char) (flag : Bool) (acc : List Token) :
    TokStep :=
  (tokStepP c rest flag acc).val

/-- The main scan loop of `Tokenizer::tokenize`, by structural recursion
on a bound `fuel` with the invariant `cs.length ≤ fuel` (each scan step
consumes at least the current character); fuel exhaustion is provably
unreachable and carries no behaviour.  The result is the token list
(terminated by `Eof`) or the first lexical error, together with the
residual input and final flag, matching the mutation of `self.input` and
`self.is_after_select` in the Rust method. -/
def tokenizeGo : (fuel : Nat) → (cs : List Char) → (flag : Bool) →
    (acc : List Token) → cs.length ≤ fuel →
    Except Error (List Token) × List Char × Bool
  | _, [], flag, acc, _ => (.ok ((Token.Eof :: acc).reverse), [], flag)
  | 0, _ :: _, _, _, h => absurd h (by simp)
  | fuel + 1, c :: rest, flag, acc, h =>
    match hs : tokStepP c rest flag acc with
    | ⟨.skip r, hp⟩ =>
      tokenizeGo fuel r flag acc
        (by
          have hp2 : r.length ≤ rest.length := hp
          simp at h
          omega)
    | ⟨.emit t f2 r, hp⟩ =>
      tokenizeGo fuel r f2 (t :: acc)
        (by
          have hp2 : r.length ≤ rest.length := hp.1
          simp at h
          omega)
    | ⟨.fail e r, _⟩ => (.error e, r, flag)

/-- The scan loop entered at its natural bound. -/
def tokenizeLoop (cs : List Char) (flag : Bool) (acc : List Token) :
    Except Error (List Token) × List Char × Bool :=
  tokenizeGo cs.length cs flag acc (Nat.le_refl _)

/-- The `Tokenizer` struct of `tokenizer.rs`: the unconsumed input
characters, the `is_after_select` flag, the cached token list of the lazy
interface and its replay index. -/
structure Tokenizer where
  input : List Char
  is_after_select : Bool
  tokens : List Token
  current_token : Nat
  deriving DecidableEq

/-- `Tokenizer::new`. -/
def Tokenizer.new (s : String) : Tokenizer :=
  { input := s.data, is_after_select := false, tokens := [], current_token := 0 }

/-- `Tokenizer::tokenize` as a state-passing method: returns the result
(the scanned token list terminated by `Eof`, or the first lexical error)
together with the tokenizer whose input and flag were consumed/updated by
the scan. -/
def Tokenizer.tokenize (t : Tokenizer) : Except Error (List Token) × Tokenizer :=
  match tokenizeLoop t.input t.is_after_select [] with
  | (res, input2, flag2) =>
    (res, { t with input := input2, is_after_select := flag2 })

/-- The eager entry point used by `build_statement` in `main.rs`:
tokenize a whole input string with a fresh tokenizer. -/
def tokenize (s : String) : Except Error (List Token) :=
  (Tokenizer.new s).tokenize.1

/-- The cache-replay part of `Iterator::next for Tokenizer`
(`tokenizer.rs` lines 210-217). -/
def Tokenizer.nextFromCache (t : Tokenizer) :
    Option (Except Error Token) × Tokenizer :=
  match t.tokens[t.current_token]? with
  | none => (none, t)
  | some tok => (some (.ok tok), { t with current_token := t.current_token + 1 })

/-- `Iterator::next for Tokenizer`: on the first pull (empty cache) run
the full scan; a successful scan fills the cache which is then replayed,
while an error is yielded without filling the cache. -/
def Tokenizer.next (t : Tokenizer) : Option (Except Error Token) × Tokenizer :=
  if t.tokens.isEmpty then
    match t.tokenize with
    | (.ok toks, t2) =>
      Tokenizer.nextFromCache { t2 with tokens := toks, current_token := 0 }
    | (.error e, t2) => (some (.error e), t2)
  else
    Tokenizer.nextFromCache t

/-- Observer of the lazy interface: the items of the first `fuel` pulls of
`Iterator::next`, stopping at the first `None`. -/
def lazyPulls : (fuel : Nat) → Tokenizer → List (Except Error Token)
  | 0, _ => []
  | fuel + 1, t =>
    match Tokenizer.next t with
    | (none, _) => []
    | (some r, t2) => r :: lazyPulls fuel t2

/-- `Parser::expect_token`: require the next token to equal `expected`
and consume it; the `Parser`'s forward cursor over its immutable token
buffer is embedded as the suffix of tokens not yet consumed (`peek` is
the suffix's head, `advance` drops it). -/
def expect_token (expected : Token) (ts : List Token) : Except Error (List Token) :=
  match ts with
  | tok :: rest =>
    if tok = expected then .ok rest
    else .error (.UnexpectedToken (tokenDebug expected) (tokenDebug tok))
  | [] => .error .UnexpectedEOF

/-- `Parser::expect_keyword`. -/
def expect_keyword (expected : Keyword) (ts : List Token) : Except Error (List Token) :=
  match ts with
  | Token.Keyword k :: rest =>
    if k = expected then .ok rest
    else .error (.UnexpectedToken expected.debug (tokenDebug (Token.Keyword k)))
  | tok :: _ => .error (.UnexpectedToken expected.debug (tokenDebug tok))
  | [] => .error .UnexpectedEOF

/-- The repeated inline pattern of `parser.rs` requiring an identifier and
failing with `ParserError("Expected <what>, found {:?}")`. -/
def name_identifier (what : String) (ts : List Token) :
    Except Error (String × List Token) :=
  match ts with
  | Token.Identifier name :: rest => .ok (name, rest)
  | tok :: _ =>
    .error (.ParserError ("Expected " ++ what ++ ", found " ++ tokenDebug tok))
  | [] => .error .UnexpectedEOF

/-- The repeated inline pattern of the `FOREIGN KEY` clauses requiring an
identifier and failing with `InvalidForeignKey` messages. -/
def fk_identifier (what : String) (missing : String) (ts : List Token) :
    Except Error (String × List Token) :=
  match ts with
  | Token.Identifier name :: rest => .ok (name, rest)
  | tok :: _ =>
    .error (.InvalidForeignKey
      ("Expected " ++ what ++ ", found " ++ tokenDebug tok))
  | [] => .error (.InvalidForeignKey missing)

theorem expect_token_ok_length {e : Token} {ts r : List Token}
    (h : expect_token e ts = .ok r) : r.length < ts.length := by
  cases ts with
  | nil => simp [expect_token] at h
  | cons t rest =>
    simp only [expect_token] at h
    split at h
    · simp at h
      subst h
      simp
    · simp at h

theorem expect_keyword_ok_length {k : Keyword} {ts r : List Token}
    (h : expect_keyword k ts = .ok r) : r.length < ts.length := by
  cases ts with
  | nil => simp [expect_keyword] at h
  | cons t rest =>
    cases t <;> simp only [expect_keyword] at h <;> try simp at h
    split at h
    · simp at h
      subst h
      simp
    · simp at h

theorem name_identifier_ok_length {w : String} {ts : List Token}
    {s : String} {r : List Token}
    (h : name_identifier w ts = .ok (s, r)) : r.length < ts.length := by
  cases ts with
  | nil => simp [name_identifier] at h
  | cons t rest =>
    cases t <;> simp [name_identifier] at h
    obtain ⟨-, h2⟩ := h
    subst h2
    simp

theorem fk_identifier_ok_length {w m : String} {ts : List Token}
    {s : String} {r : List Token}
    (h : fk_identifier w m ts = .ok (s, r)) : r.length < ts.length := by
  cases ts with
  | nil => simp [fk_identifier] at h
  | cons t rest =>
    cases t <;> simp [fk_identifier] at h
    obtain ⟨-, h2⟩ := h
    subst h2
    simp

/-- `Parser::get_binary_precedence` (`parser.rs` lines 568-580). -/
def get_binary_precedence (token : Token) : Nat :=
  match token with
  | .Keyword .Or => 1
  | .Keyword .And => 2
  | .Equal | .NotEqual => 3
  | .GreaterThan | .GreaterThanOrEqual | .LessThan | .LessThanOrEqual => 4
  | .Plus | .Minus => 5
  | .Star | .Divide => 6
  | .Semicolon => 0
  | _ => 0

/-- `Parser::parse_binary_operator` (`parser.rs` lines 547-566). -/
def parse_binary_operator (ts : List Token) :
    Except Error (BinaryOperator × List Token) :=
  match ts with
  | [] => .error .UnexpectedEOF
  | t :: rest =>
    match t with
    | .Plus => .ok (.Plus, rest)
    | .Minus => .ok (.Minus, rest)
    | .Star => .ok (.Multiply, rest)
    | .Divide => .ok (.Divide, rest)
    | .Equal => .ok (.Equal, rest)
    | .NotEqual => .ok (.NotEqual, rest)
    | .GreaterThan => .ok (.GreaterThan, rest)
    | .GreaterThanOrEqual => .ok (.GreaterThanOrEqual, rest)
    | .LessThan => .ok (.LessThan, rest)
    | .LessThanOrEqual => .ok (.LessThanOrEqual, rest)
    | .Keyword .And => .ok (.And, rest)
    | .Keyword .Or => .ok (.Or, rest)
    | tok =>
      .error (.ParserError
        ("Unexpected token in operator position: " ++ tokenDebug tok))

theorem parse_binary_operator_ok_tail {t : Token} {rest ts1 : List Token}
    {op : BinaryOperator}
    (h : parse_binary_operator (t :: rest) = .ok (op, ts1)) : ts1 = rest := by
  cases t with
  | Keyword k => cases k <;> simp [parse_binary_operator] at h <;> tauto
  | _ => simp [parse_binary_operator] at h <;> tauto

mutual

/-- `Parser::parse_prefix_expression` (`parser.rs` lines 487-545).  The
mutually recursive expression parsers are phrased by structural recursion
on a fuel bound (each round trip through them consumes at least one
token); the returned suffix carries the proof that at least one token was
consumed.  Fuel exhaustion is provably unreachable and carries no
behaviour. -/
def prefixGo : (fuel : Nat) → (ts : List Token) → 2 * ts.length ≤ fuel →
    Except Error (Expression × { r : List Token // r.length < ts.length })
  | _, [], _ => .error .UnexpectedEOF
  | 0, _ :: _, h => absurd h (by simp)
  | fuel + 1, t :: rest, h =>
    match t with
    | .Number n => .ok (.Number n, ⟨rest, by simp⟩)
    | .String s => .ok (.String s, ⟨rest, by simp⟩)
    | .Identifier i => .ok (.Identifier i, ⟨rest, by simp⟩)
    | .Keyword .True => .ok (.Bool true, ⟨rest, by simp⟩)
    | .Keyword .False => .ok (.Bool false, ⟨rest, by simp⟩)
    | .LeftParentheses =>
      match binexpGo fuel 0 rest (by simp at h; omega) with
      | .error e => .error e
      | .ok (e, ⟨r1, hr1⟩) =>
        match hx : expect_token .RightParentheses r1 with
        | .error e2 => .error e2
        | .ok r2 =>
          .ok (e, ⟨r2, by
            have := expect_token_ok_length hx
            simp
            omega⟩)
    | .Minus =>
      match binexpGo fuel 0 rest (by simp at h; omega) with
      | .error e => .error e
      | .ok (e, ⟨r1, hr1⟩) =>
        .ok (.UnaryOperation e .Minus, ⟨r1, by simp; omega⟩)
    | .Plus =>
      match binexpGo fuel 0 rest (by simp at h; omega) with
      | .error e => .error e
      | .ok (e, ⟨r1, hr1⟩) =>
        .ok (.UnaryOperation e .Plus, ⟨r1, by simp; omega⟩)
    | .Keyword .Not =>
      match binexpGo fuel 0 rest (by simp at h; omega) with
      | .error e => .error e
      | .ok (e, ⟨r1, hr1⟩) =>
        .ok (.UnaryOperation e .Not, ⟨r1, by simp; omega⟩)
    | tok =>
      .error (.ParserError
        ("Unexpected token in prefix position: " ++ tokenDebug tok))

/-- `Parser::parse_binary_expression` (`parser.rs` lines 459-485): a
prefix term followed by the precedence-climbing loop. -/
def binexpGo : (fuel : Nat) → (minPrec : Nat) → (ts : List Token) →
    2 * ts.length + 1 ≤ fuel →
    Except Error (Expression × { r : List Token // r.length < ts.length })
  | 0, _, _, h => absurd h (by simp)
  | fuel + 1, minPrec, ts, h =>
    match prefixGo fuel ts (by omega) with
    | .error e => .error e
    | .ok (left, ⟨ts1, h1⟩) =>
      match binloopGo fuel minPrec left ts1 (by omega) with
      | .error e => .error e
      | .ok (e, ⟨ts2, h2⟩) => .ok (e, ⟨ts2, by omega⟩)

/-- The `while` loop of `Parser::parse_binary_expression`: stop without
consuming on a terminator token or on an operator binding weaker than
`minPrec`, otherwise consume the operator, parse the right operand with
minimum precedence one higher, and continue with the grown left
operand. -/
def binloopGo : (fuel : Nat) → (minPrec : Nat) → (left : Expression) →
    (ts : List Token) → 2 * ts.length ≤ fuel →
    Except Error (Expression × { r : List Token // r.length ≤ ts.length })
  | _, _, left, [], _ => .ok (left, ⟨[], by simp⟩)
  | 0, _, _, _ :: _, h => absurd h (by simp)
  | fuel + 1, minPrec, left, t :: rest, h =>
    if t = .Semicolon ∨ t = .Comma ∨ t = .Keyword .From ∨
        t = .RightParentheses ∨ t = .Keyword .Order ∨ t = .Keyword .Asc ∨
        t = .Keyword .Desc then
      .ok (left, ⟨t :: rest, Nat.le_refl _⟩)
    else if get_binary_precedence t < minPrec then
      .ok (left, ⟨t :: rest, Nat.le_refl _⟩)
    else
      match hop : parse_binary_operator (t :: rest) with
      | .error e => .error e
      | .ok (op, ts1) =>
        match binexpGo fuel (get_binary_precedence t + 1) ts1
            (by
              have := parse_binary_operator_ok_tail hop
              subst this
              simp at h
              omega) with
        | .error e => .error e
        | .ok (right, ⟨ts2, h2⟩) =>
          match binloopGo fuel minPrec
              (.BinaryOperation left op right) ts2
              (by
                have := parse_binary_operator_ok_tail hop
                subst this
                simp at h
                omega) with
          | .error e => .error e
          | .ok (e, ⟨ts3, h3⟩) =>
            .ok (e, ⟨ts3, by
              have := parse_binary_operator_ok_tail hop
              subst this
              simp
              omega⟩)

end

/-- `Parser::parse_prefix_expression` entered at its natural fuel bound,
with the consumption proof erased. -/
def parse_prefix_expression (ts : List Token) :
    Except Error (Expression × List Token) :=
  (prefixGo (2 * ts.length) ts (Nat.le_refl _)).map fun p => (p.1, p.2.val)

/-- `Parser::parse_binary_expression` entered at its natural fuel bound,
with the consumption proof erased. -/
def parse_binary_expression (minPrec : Nat) (ts : List Token) :
    Except Error (Expression × List Token) :=
  (binexpGo (2 * ts.length + 1) minPrec ts (Nat.le_refl _)).map
    fun p => (p.1, p.2.val)

/-- `Parser::parse_expression`: `parse_binary_expression(0)`. -/
def parse_expression (ts : List Token) :
    Except Error (Expression × List Token) :=
  parse_binary_expression 0 ts

theorem parse_expression_ok_length {ts : List Token} {e : Expression}
    {r : List Token} (h : parse_expression ts = .ok (e, r)) :
    r.length < ts.length := by
  unfold parse_expression parse_binary_expression at h
  cases hb : binexpGo (2 * ts.length + 1) 0 ts (Nat.le_refl _) with
  | error e2 => rw [hb] at h; simp [Except.map] at h
  | ok p =>
    rw [hb] at h
    obtain ⟨e2, r2, hr2⟩ := p
    simp [Except.map] at h
    obtain ⟨-, h2⟩ := h
    subst h2
    exact hr2

/-- The `ASC`/`DESC` wrapping of one `ORDER BY` term
(`parser.rs` lines 83-99). -/
def orderby_direction (e : Expression) (ts : List Token) :
    Expression × List Token :=
  match ts with
  | .Keyword .Asc :: r => (.UnaryOperation e .Asc, r)
  | .Keyword .Desc :: r => (.UnaryOperation e .Desc, r)
  | _ => (e, ts)

theorem orderby_direction_length (e : Expression) (ts : List Token) :
    (orderby_direction e ts).2.length ≤ ts.length := by
  unfold orderby_direction
  split <;> simp

/-- The expression-list loop of `Parser::parse_expressions_list`
(`parser.rs` lines 432-450). -/
def exprListGo : (fuel : Nat) → (acc : List Expression) → (ts : List Token) →
    ts.length < fuel → Except Error (List Expression × List Token)
  | 0, _, _, h => absurd h (by omega)
  | fuel + 1, acc, ts, h =>
    match hpe : parse_expression ts with
    | .error e => .error e
    | .ok (e, r) =>
      match r with
      | .Comma :: r2 =>
        exprListGo fuel (acc ++ [e]) r2
          (by
            have := parse_expression_ok_length hpe
            simp at this
            omega)
      | .Keyword .From :: _ => .ok (acc ++ [e], r)
      | .Semicolon :: _ => .ok (acc ++ [e], r)
      | t :: _ => .error (.UnexpectedToken "comma or FROM" (tokenDebug t))
      | [] => .error .UnexpectedEOF

/-- `Parser::parse_expressions_list` (`parser.rs` lines 413-453): the
standalone-`Wildcard` projection, or the comma-separated loop. -/
def parse_expressions_list (ts : List Token) :
    Except Error (List Expression × List Token) :=
  match ts with
  | .Wildcard :: rest =>
    match rest with
    | .Keyword .From :: _ => .ok ([.Identifier "*"], rest)
    | t :: _ => .error (.UnexpectedToken "FROM" (tokenDebug t))
    | [] => .error .UnexpectedEOF
  | _ => exprListGo (ts.length + 1) [] ts (by omega)

/-- The `ORDER BY` loop of `Parser::parse_select`
(`parser.rs` lines 79-108). -/
def orderbyGo : (fuel : Nat) → (acc : List Expression) → (ts : List Token) →
    ts.length < fuel → Except Error (List Expression × List Token)
  | 0, _, _, h => absurd h (by omega)
  | fuel + 1, acc, ts, h =>
    match hpe : parse_expression ts with
    | .error e => .error e
    | .ok (e, r) =>
      match hd : orderby_direction e r with
      | (e2, r2) =>
        match r2 with
        | .Comma :: r3 =>
          orderbyGo fuel (acc ++ [e2]) r3
            (by
              have h1 := parse_expression_ok_length hpe
              have h2 := orderby_direction_length e r
              rw [hd] at h2
              simp at h2
              omega)
        | _ => .ok (acc ++ [e2], r2)

/-- The tail of `Parser::parse_select` after the optional `WHERE`
clause: the optional `ORDER BY` clause and the required semicolon
(`parser.rs` lines 73-119). -/
def select_tail (columns : List Expression) (fromName : String)
    (whereClause : Option Expression) (ts : List Token) :
    Except Error Statement :=
  match ts with
  | .Keyword .Order :: ts1 =>
    match expect_keyword .By ts1 with
    | .error e => .error e
    | .ok ts2 =>
      match orderbyGo (ts2.length + 1) [] ts2 (by omega) with
      | .error e => .error e
      | .ok (ob, ts3) =>
        match expect_token .Semicolon ts3 with
        | .error e => .error e
        | .ok _ => .ok (.Select columns fromName whereClause ob)
  | _ =>
    match expect_token .Semicolon ts with
    | .error e => .error e
    | .ok _ => .ok (.Select columns fromName whereClause [])

/-- `Parser::parse_select` (`parser.rs` lines 41-120), entered with the
cursor on the `SELECT` keyword, which it consumes unconditionally. -/
def parse_select (ts : List Token) : Except Error Statement :=
  match parse_expressions_list ts.tail with
  | .error e => .error e
  | .ok (columns, ts2) =>
    match ts2 with
    | .Keyword .From :: ts3 =>
      match name_identifier "table name" ts3 with
      | .error e => .error e
      | .ok (fromName, ts4) =>
        match ts4 with
        | .Keyword .Where :: ts5 =>
          match parse_expression ts5 with
          | .error e => .error e
          | .ok (w, ts6) => select_tail columns fromName (some w) ts6
        | _ => select_tail columns fromName none ts4
    | _ => .error .MissingFromClause

/-- The constraint loop of `Parser::parse_column_definition`
(`parser.rs` lines 329-404). -/
def constraintsGo : (fuel : Nat) → (acc : List Constraint) →
    (ts : List Token) → ts.length < fuel →
    Except Error (List Constraint × { r : List Token // r.length ≤ ts.length })
  | 0, _, _, h => absurd h (by omega)
  | fuel + 1, acc, ts, h =>
    match ts with
    | .Keyword .Primary :: rest =>
      match hk : expect_keyword .Key rest with
      | .error e => .error e
      | .ok r1 =>
        match constraintsGo fuel (acc ++ [.PrimaryKey]) r1
            (by
              have := expect_keyword_ok_length hk
              simp at h
              omega) with
        | .error e => .error e
        | .ok (cs, ⟨r2, hr2⟩) =>
          .ok (cs, ⟨r2, by
            have := expect_keyword_ok_length hk
            simp
            omega⟩)
    | .Keyword .Foreign :: rest =>
      match hk : expect_keyword .Key rest with
      | .error e => .error e
      | .ok r1 =>
        match hx1 : expect_token .LeftParentheses r1 with
        | .error e => .error e
        | .ok r2 =>
          match hc1 : fk_identifier "column name" "Missing column name" r2 with
          | .error e => .error e
          | .ok (col, r3) =>
            match hx2 : expect_token .RightParentheses r3 with
            | .error e => .error e
            | .ok r4 =>
              match hk2 : expect_keyword .References r4 with
              | .error e => .error e
              | .ok r5 =>
                match hc2 : fk_identifier "table name"
                    "Missing referenced table name" r5 with
                | .error e => .error e
                | .ok (reft, r6) =>
                  match hx3 : expect_token .LeftParentheses r6 with
                  | .error e => .error e
                  | .ok r7 =>
                    match hc3 : fk_identifier "column name"
                        "Missing referenced column name" r7 with
                    | .error e => .error e
                    | .ok (refc, r8) =>
                      match hx4 : expect_token .RightParentheses r8 with
                      | .error e => .error e
                      | .ok r9 =>
                        match constraintsGo fuel
                            (acc ++ [.ForeignKey col reft refc]) r9
                            (by
                              have a1 := expect_keyword_ok_length hk
                              have a2 := expect_token_ok_length hx1
                              have a3 := fk_identifier_ok_length hc1
                              have a4 := expect_token_ok_length hx2
                              have a5 := expect_keyword_ok_length hk2
                              have a6 := fk_identifier_ok_length hc2
                              have a7 := expect_token_ok_length hx3
                              have a8 := fk_identifier_ok_length hc3
                              have a9 := expect_token_ok_length hx4
                              simp at h
                              omega) with
                        | .error e => .error e
                        | .ok (cs, ⟨r10, hr10⟩) =>
                          .ok (cs, ⟨r10, by
                            have a1 := expect_keyword_ok_length hk
                            have a2 := expect_token_ok_length hx1
                            have a3 := fk_identifier_ok_length hc1
                            have a4 := expect_token_ok_length hx2
                            have a5 := expect_keyword_ok_length hk2
                            have a6 := fk_identifier_ok_length hc2
                            have a7 := expect_token_ok_length hx3
                            have a8 := fk_identifier_ok_length hc3
                            have a9 := expect_token_ok_length hx4
                            simp
                            omega⟩)
    | .Keyword .Not :: rest =>
      match hk : expect_keyword .Null rest with
      | .error e => .error e
      | .ok r1 =>
        match constraintsGo fuel (acc ++ [.NotNull]) r1
            (by
              have := expect_keyword_ok_length hk
              simp at h
              omega) with
        | .error e => .error e
        | .ok (cs, ⟨r2, hr2⟩) =>
          .ok (cs, ⟨r2, by
            have := expect_keyword_ok_length hk
            simp
            omega⟩)
    | .Keyword .Check :: rest =>
      match rest with
      | .LeftParentheses :: r2 =>
        match hpe : parse_expression r2 with
        | .error e => .error e
        | .ok (e, r3) =>
          match hx : expect_token .RightParentheses r3 with
          | .error e => .error e
          | .ok r4 =>
            match constraintsGo fuel (acc ++ [.Check e]) r4
                (by
                  have a1 := parse_expression_ok_length hpe
                  have a2 := expect_token_ok_length hx
                  simp at h
                  omega) with
            | .error e => .error e
            | .ok (cs, ⟨r5, hr5⟩) =>
              .ok (cs, ⟨r5, by
                have a1 := parse_expression_ok_length hpe
                have a2 := expect_token_ok_length hx
                simp
                omega⟩)
      | _ => .error (.ParserError "Expected '(' after CHECK")
    | tsD => .ok (acc, ⟨tsD, Nat.le_refl _⟩)

/-- `Parser::parse_column_definition` (`parser.rs` lines 283-411): column
name, type (with the mandatory `VARCHAR` length), then the constraint
loop.  The returned suffix carries the proof that at least the name token
was consumed. -/
def parse_column_definitionAux (ts : List Token) :
    Except Error (TableColumn × { r : List Token // r.length < ts.length }) :=
  match hn : name_identifier "column name" ts with
  | .error e => .error e
  | .ok (colName, ts1) =>
    match ts1 with
    | .Keyword .Int :: ts2 =>
      match hcs : constraintsGo (ts2.length + 1) [] ts2 (by omega) with
      | .error e => .error e
      | .ok (cs, ⟨r, hr⟩) =>
        .ok (⟨colName, .Int, cs⟩, ⟨r, by
          have := name_identifier_ok_length hn
          simp at this
          omega⟩)
    | .Keyword .Bool :: ts2 =>
      match hcs : constraintsGo (ts2.length + 1) [] ts2 (by omega) with
      | .error e => .error e
      | .ok (cs, ⟨r, hr⟩) =>
        .ok (⟨colName, .Bool, cs⟩, ⟨r, by
          have := name_identifier_ok_length hn
          simp at this
          omega⟩)
    | .Keyword .Varchar :: ts2 =>
      match ts2 with
      | .LeftParentheses :: ts3 =>
        match ts3 with
        | .Number n :: ts4 =>
          match hx : expect_token .RightParentheses ts4 with
          | .error e => .error e
          | .ok ts5 =>
            match hcs : constraintsGo (ts5.length + 1) [] ts5 (by omega) with
            | .error e => .error e
            | .ok (cs, ⟨r, hr⟩) =>
              .ok (⟨colName, .Varchar n, cs⟩, ⟨r, by
                have a1 := name_identifier_ok_length hn
                have a2 := expect_token_ok_length hx
                simp at a1
                omega⟩)
        | t :: _ =>
          .error (.InvalidVarcharLength
            ("Expected number, found " ++ tokenDebug t))
        | [] => .error (.InvalidVarcharLength "Missing VARCHAR length")
      | _ =>
        .error (.InvalidVarcharLength "Missing VARCHAR length specification")
    | t :: _ => .error (.ParserError ("Expected type, found " ++ tokenDebug t))
    | [] => .error .UnexpectedEOF

/-- `Parser::parse_column_definition` with the consumption proof
erased. -/
def parse_column_definition (ts : List Token) :
    Except Error (TableColumn × List Token) :=
  (parse_column_definitionAux ts).map fun p => (p.1, p.2.val)

/-- The search-and-decorate step of the table-level `FOREIGN KEY` clause
(`parser.rs` lines 194-209): append the constraint to the first column of
`cols` named `column`, or return `none` when no such column exists. -/
def attach_foreign_key (cols : List TableColumn)
    (column referenced_table referenced_column : String) :
    Option (List TableColumn) :=
  match cols with
  | [] => none
  | col :: others =>
    if col.column_name = column then
      some ({ col with constraints := col.constraints ++
        [.ForeignKey column referenced_table referenced_column] } :: others)
    else
      match attach_foreign_key others column referenced_table
          referenced_column with
      | some others2 => some (col :: others2)
      | none => none

/-- The column/constraint loop of `Parser::parse_create_table`
(`parser.rs` lines 141-214): stop on `)`, demand a comma before every
item but the first, then either a table-level `FOREIGN KEY` clause
(which decorates an already-declared column) or a column definition. -/
def createTableGo : (fuel : Nat) → (cols : List TableColumn) →
    (ts : List Token) → ts.length < fuel →
    Except Error (List TableColumn × List Token)
  | 0, _, _, h => absurd h (by omega)
  | fuel + 1, cols, ts, h =>
    if hrp : ts.head? = some .RightParentheses then .ok (cols, ts.tail)
    else
      match hcm : (if cols.isEmpty then Except.ok ts
          else expect_token .Comma ts) with
      | .error e => .error e
      | .ok ts1 =>
        match ts1 with
        | .Keyword .Foreign :: ts2 =>
          match hk : expect_keyword .Key ts2 with
          | .error e => .error e
          | .ok r1 =>
            match hx1 : expect_token .LeftParentheses r1 with
            | .error e => .error e
            | .ok r2 =>
              match hc1 : fk_identifier "column name"
                  "Missing column name" r2 with
              | .error e => .error e
              | .ok (col, r3) =>
                match hx2 : expect_token .RightParentheses r3 with
                | .error e => .error e
                | .ok r4 =>
                  match hk2 : expect_keyword .References r4 with
                  | .error e => .error e
                  | .ok r5 =>
                    match hc2 : fk_identifier "table name"
                        "Missing referenced table name" r5 with
                    | .error e => .error e
                    | .ok (reft, r6) =>
                      match hx3 : expect_token .LeftParentheses r6 with
                      | .error e => .error e
                      | .ok r7 =>
                        match hc3 : fk_identifier "column name"
                            "Missing referenced column name" r7 with
                        | .error e => .error e
                        | .ok (refc, r8) =>
                          match hx4 : expect_token .RightParentheses r8 with
                          | .error e => .error e
                          | .ok r9 =>
                            match attach_foreign_key cols col reft refc with
                            | some cols2 =>
                              createTableGo fuel cols2 r9
                                (by
                                  have a1 := expect_keyword_ok_length hk
                                  have a2 := expect_token_ok_length hx1
                                  have a3 := fk_identifier_ok_length hc1
                                  have a4 := expect_token_ok_length hx2
                                  have a5 := expect_keyword_ok_length hk2
                                  have a6 := fk_identifier_ok_length hc2
                                  have a7 := expect_token_ok_length hx3
                                  have a8 := fk_identifier_ok_length hc3
                                  have a9 := expect_token_ok_length hx4
                                  have hts1 : ts2.length + 1 ≤ ts.length := by
                                    by_cases hce : cols.isEmpty
                                    · simp [hce] at hcm
                                      rw [hcm]
                                      simp
                                    · simp [hce] at hcm
                                      have hb := expect_token_ok_length hcm
                                      simp at hb
                                      omega
                                  omega)
                            | none =>
                              .error (.InvalidForeignKey
                                ("Column " ++ col ++ " not found in table"))
        | tsC =>
          match hcd : parse_column_definitionAux tsC with
          | .error e => .error e
          | .ok (col, ⟨r, hr⟩) =>
            createTableGo fuel (cols ++ [col]) r
              (by
                have hts1 : tsC.length ≤ ts.length := by
                  by_cases hce : cols.isEmpty
                  · simp [hce] at hcm
                    simp [hcm]
                  · simp [hce] at hcm
                    exact Nat.le_of_lt (expect_token_ok_length hcm)
                omega)

/-- `Parser::parse_create_table` (`parser.rs` lines 122-223), entered
with the cursor on the `TABLE` keyword. -/
def parse_create_table (ts : List Token) : Except Error Statement :=
  match expect_keyword .Table ts with
  | .error e => .error e
  | .ok ts1 =>
    match name_identifier "table name" ts1 with
    | .error e => .error e
    | .ok (tname, ts2) =>
      match expect_token .LeftParentheses ts2 with
      | .error e => .error e
      | .ok ts3 =>
        match createTableGo (ts3.length + 1) [] ts3 (by omega) with
        | .error e => .error e
        | .ok (cols, ts4) =>
          match expect_token .Semicolon ts4 with
          | .error e => .error e
          | .ok _ => .ok (.CreateTable tname cols)

/-- `Parser::parse_create_index` (`parser.rs` lines 225-281), entered
with the cursor on `UNIQUE` or `INDEX`. -/
def parse_create_index (ts : List Token) : Except Error Statement :=
  match (match ts with
         | .Keyword .Unique :: ts1 => (true, ts1)
         | _ => (false, ts)) with
  | (is_unique, ts1) =>
    match expect_keyword .Index ts1 with
    | .error e => .error e
    | .ok ts2 =>
      match name_identifier "index name" ts2 with
      | .error e => .error e
      | .ok (iname, ts3) =>
        match expect_keyword .On ts3 with
        | .error e => .error e
        | .ok ts4 =>
          match name_identifier "table name" ts4 with
          | .error e => .error e
          | .ok (tname, ts5) =>
            match expect_token .LeftParentheses ts5 with
            | .error e => .error e
            | .ok ts6 =>
              match name_identifier "column name" ts6 with
              | .error e => .error e
              | .ok (cname, ts7) =>
                match expect_token .RightParentheses ts7 with
                | .error e => .error e
                | .ok ts8 =>
                  match expect_token .Semicolon ts8 with
                  | .error e => .error e
                  | .ok _ => .ok (.CreateIndex is_unique iname tname cname)

/-- `Parser::parse` (`parser.rs` lines 18-39): statement-kind dispatch on
the first one or two tokens. -/
def parse (ts : List Token) : Except Error Statement :=
  match ts with
  | .Keyword .Select :: _ => parse_select ts
  | .Keyword .Create :: rest =>
    match rest with
    | .Keyword .Table :: _ => parse_create_table rest
    | .Keyword .Unique :: _ => parse_create_index rest
    | .Keyword .Index :: _ => parse_create_index rest
    | t :: _ => .error (.UnexpectedToken "TABLE or INDEX" (tokenDebug t))
    | [] => .error .UnexpectedEOF
  | t :: _ => .error (.UnexpectedToken "SELECT or CREATE" (tokenDebug t))
  | [] => .error .UnexpectedEOF

/-- The `parse_sql` helper of the parser test module (`parser.rs` lines
624-629): eagerly tokenize, then parse. -/
def parse_sql (s : String) : Except Error Statement :=
  match tokenize s with
  | .ok toks => parse toks
  | .error e => .error e

theorem tokenizeGo_ok_shape (fuel : Nat) (cs : List Char) (flag : Bool)
    (acc : List Token) (h : cs.length ≤ fuel) :
    ∀ out input2 flag2,
      tokenizeGo fuel cs flag acc h = (.ok out, input2, flag2) →
      ∃ mid, out = acc.reverse ++ mid ++ [Token.Eof] ∧ Token.Eof ∉ mid := by
  induction fuel, cs, flag, acc, h using tokenizeGo.induct with
  | case1 t flag acc hle hle2 =>
    intro out input2 flag2 hok
    simp only [tokenizeGo] at hok
    refine ⟨[], ?_, by simp⟩
    simp_all
  | case2 head tail x x1 h h2 =>
    intro out input2 flag2 hok
    simp at h
  | case3 fuel c rest flag acc h r hp hs hh ih =>
    intro out input2 flag2 hok
    simp only [tokenizeGo] at hok
    rw [hs] at hok
    exact ih out input2 flag2 hok
  | case4 fuel c rest flag acc h t f2 r hp hs hh ih =>
    intro out input2 flag2 hok
    simp only [tokenizeGo] at hok
    rw [hs] at hok
    obtain ⟨mid, hmid, hnm⟩ := ih out input2 flag2 hok
    subst hmid
    refine ⟨t :: mid, by simp, ?_⟩
    intro hmem
    rcases List.mem_cons.mp hmem with hq | hq
    · exact hp.2 hq.symm
    · exact hnm hq
  | case5 fuel c rest flag acc h e r hp hs hh =>
    intro out input2 flag2 hok
    simp only [tokenizeGo] at hok
    rw [hs] at hok
    simp at hok

/-- The shape every successful `tokenize` produces: a nonempty token list
whose last element is `Eof`, with `Eof` occurring nowhere else. -/
def wellTerminated (ts : List Token) : Prop :=
  ts ≠ [] ∧ ts.getLast? = some Token.Eof ∧ Token.Eof ∉ ts.dropLast

instance (ts : List Token) : Decidable (wellTerminated ts) :=
  inferInstanceAs (Decidable (_ ∧ _ ∧ _))

theorem wellTerminated_cons {t : Token} {ts : List Token}
    (hw : wellTerminated (t :: ts)) :
    (t = Token.Eof ∧ ts = []) ∨ (t ≠ Token.Eof ∧ wellTerminated ts) := by
  obtain ⟨-, hlast, hnot⟩ := hw
  cases ts with
  | nil =>
    left
    simp_all
  | cons u us =>
    right
    have hl2 : (u :: us).getLast? = some Token.Eof := by
      rwa [List.getLast?_cons_cons] at hlast
    have hd2 : (t :: u :: us).dropLast = t :: (u :: us).dropLast := by
      simp
    rw [hd2] at hnot
    simp only [List.mem_cons, not_or] at hnot
    exact ⟨fun hq => hnot.1 hq.symm, by simp, hl2, hnot.2⟩

theorem wellTerminated_tail {t : Token} {ts : List Token}
    (hw : wellTerminated (t :: ts)) (hne : t ≠ Token.Eof) :
    wellTerminated ts := by
  rcases wellTerminated_cons hw with ⟨h1, -⟩ | ⟨-, h2⟩
  · exact absurd h1 hne
  · exact h2

/-- The two facts tracked through every parsing function on
well-terminated input: an error outcome is never `UnexpectedEOF`, and a
success outcome satisfies `P` (instantiated with: the remaining suffix is
still well terminated). -/
def parserOkErr {α : Type} (res : Except Error α) (P : α → Prop) : Prop :=
  match res with
  | .error e => e ≠ Error.UnexpectedEOF
  | .ok a => P a

theorem parserOkErr_error {α : Type} {res : Except Error α} {P : α → Prop}
    (h : parserOkErr res P) {e : Error} (he : res = .error e) :
    e ≠ Error.UnexpectedEOF := by
  subst he
  exact h

theorem parserOkErr_ok {α : Type} {res : Except Error α} {P : α → Prop}
    (h : parserOkErr res P) {a : α} (ha : res = .ok a) : P a := by
  subst ha
  exact h

theorem expect_token_ok_shape {expected : Token} {ts r : List Token}
    (h : expect_token expected ts = .ok r) : ts = expected :: r := by
  cases ts with
  | nil => simp [expect_token] at h
  | cons t rest =>
    simp only [expect_token] at h
    split at h <;> simp_all

theorem expect_token_error_shape {expected : Token} {ts : List Token}
    {e : Error} (hne : ts ≠ []) (h : expect_token expected ts = .error e) :
    e ≠ Error.UnexpectedEOF := by
  cases ts with
  | nil => exact absurd rfl hne
  | cons t rest =>
    simp only [expect_token] at h
    split at h <;>
      first
        | (simp at h; subst h; simp)
        | simp_all

theorem expect_keyword_ok_shape {k : Keyword} {ts r : List Token}
    (h : expect_keyword k ts = .ok r) : ts = Token.Keyword k :: r := by
  cases ts with
  | nil => simp [expect_keyword] at h
  | cons t rest =>
    cases t <;> simp only [expect_keyword] at h <;> try simp_all
    split at h <;> simp_all

theorem expect_keyword_error_shape {k : Keyword} {ts : List Token}
    {e : Error} (hne : ts ≠ []) (h : expect_keyword k ts = .error e) :
    e ≠ Error.UnexpectedEOF := by
  cases ts with
  | nil => exact absurd rfl hne
  | cons t rest =>
    cases t <;> simp only [expect_keyword] at h <;>
      try (simp at h; subst h; simp)
    split at h <;>
      first
        | (simp at h; subst h; simp)
        | simp_all

theorem name_identifier_ok_shape {w : String} {ts r : List Token} {s : String}
    (h : name_identifier w ts = .ok (s, r)) : ts = Token.Identifier s :: r := by
  cases ts with
  | nil => simp [name_identifier] at h
  | cons t rest => cases t <;> simp [name_identifier] at h <;> simp_all

theorem name_identifier_error_shape {w : String} {ts : List Token} {e : Error}
    (hne : ts ≠ []) (h : name_identifier w ts = .error e) :
    e ≠ Error.UnexpectedEOF := by
  cases ts with
  | nil => exact absurd rfl hne
  | cons t rest =>
    cases t <;> simp only [name_identifier] at h <;>
      first
        | (simp at h; subst h; simp)
        | simp_all

theorem fk_identifier_ok_shape {w m : String} {ts r : List Token} {s : String}
    (h : fk_identifier w m ts = .ok (s, r)) : ts = Token.Identifier s :: r := by
  cases ts with
  | nil => simp [fk_identifier] at h
  | cons t rest => cases t <;> simp [fk_identifier] at h <;> simp_all

theorem fk_identifier_error_shape {w m : String} {ts : List Token} {e : Error}
    (h : fk_identifier w m ts = .error e) : e ≠ Error.UnexpectedEOF := by
  cases ts with
  | nil =>
    simp only [fk_identifier] at h
    simp at h
    subst h
    simp
  | cons t rest =>
    cases t <;> simp only [fk_identifier] at h <;>
      first
        | (simp at h; subst h; simp)
        | simp_all

theorem parse_binary_operator_ok_shape {ts r : List Token}
    {op : BinaryOperator} (h : parse_binary_operator ts = .ok (op, r)) :
    ∃ t, ts = t :: r ∧ t ≠ Token.Eof := by
  cases ts with
  | nil => simp [parse_binary_operator] at h
  | cons t rest =>
    have := parse_binary_operator_ok_tail h
    subst this
    refine ⟨t, rfl, ?_⟩
    intro hq
    subst hq
    simp [parse_binary_operator] at h

theorem parse_binary_operator_error_shape {ts : List Token} {e : Error}
    (hne : ts ≠ []) (h : parse_binary_operator ts = .error e) :
    e ≠ Error.UnexpectedEOF := by
  cases ts with
  | nil => exact absurd rfl hne
  | cons t rest =>
    cases t with
    | Keyword k =>
      cases k <;> simp only [parse_binary_operator] at h <;>
        first
          | (simp at h; subst h; simp)
          | simp_all
    | _ =>
      simp only [parse_binary_operator] at h <;>
        first
          | (simp at h; subst h; simp)
          | simp_all

theorem expect_token_noEOF {expected : Token} {ts : List Token}
    (hne : expected ≠ Token.Eof) (hw : wellTerminated ts) :
    parserOkErr (expect_token expected ts) wellTerminated := by
  rcases hres : expect_token expected ts with e | r
  · exact expect_token_error_shape hw.1 hres
  · have := expect_token_ok_shape hres
    subst this
    exact wellTerminated_tail hw hne

theorem expect_keyword_noEOF {k : Keyword} {ts : List Token}
    (hw : wellTerminated ts) :
    parserOkErr (expect_keyword k ts) wellTerminated := by
  rcases hres : expect_keyword k ts with e | r
  · exact expect_keyword_error_shape hw.1 hres
  · have := expect_keyword_ok_shape hres
    subst this
    exact wellTerminated_tail hw (by simp)

theorem name_identifier_noEOF {w : String} {ts : List Token}
    (hw : wellTerminated ts) :
    parserOkErr (name_identifier w ts) (fun p => wellTerminated p.2) := by
  rcases hres : name_identifier w ts with e | ⟨s, r⟩
  · exact name_identifier_error_shape hw.1 hres
  · have := name_identifier_ok_shape hres
    subst this
    exact wellTerminated_tail hw (by simp)

theorem fk_identifier_noEOF {w m : String} {ts : List Token}
    (hw : wellTerminated ts) :
    parserOkErr (fk_identifier w m ts) (fun p => wellTerminated p.2) := by
  rcases hres : fk_identifier w m ts with e | ⟨s, r⟩
  · exact fk_identifier_error_shape hres
  · have := fk_identifier_ok_shape hres
    subst this
    exact wellTerminated_tail hw (by simp)

theorem parse_binary_operator_noEOF {ts : List Token}
    (hw : wellTerminated ts) :
    parserOkErr (parse_binary_operator ts) (fun p => wellTerminated p.2) := by
  rcases hres : parse_binary_operator ts with e | ⟨op, r⟩
  · exact parse_binary_operator_error_shape hw.1 hres
  · obtain ⟨t, hts, hne2⟩ := parse_binary_operator_ok_shape hres
    subst hts
    exact wellTerminated_tail hw hne2

theorem expr_noEOF (fuel : Nat) :
    (∀ (ts : List Token) (hf : 2 * ts.length ≤ fuel), wellTerminated ts →
      parserOkErr (prefixGo fuel ts hf) (fun p => wellTerminated p.2.val)) ∧
    (∀ (minPrec : Nat) (ts : List Token) (hf : 2 * ts.length + 1 ≤ fuel),
      wellTerminated ts →
      parserOkErr (binexpGo fuel minPrec ts hf)
        (fun p => wellTerminated p.2.val)) ∧
    (∀ (minPrec : Nat) (left : Expression) (ts : List Token)
      (hf : 2 * ts.length ≤ fuel), wellTerminated ts →
      parserOkErr (binloopGo fuel minPrec left ts hf)
        (fun p => wellTerminated p.2.val)) := by
  induction fuel with
  | zero =>
    refine ⟨?_, ?_, ?_⟩
    · intro ts hf hw
      cases ts with
      | nil => exact absurd rfl hw.1
      | cons t rest => simp at hf
    · intro minPrec ts hf hw
      exact absurd hf (by omega)
    · intro minPrec left ts hf hw
      cases ts with
      | nil => exact absurd rfl hw.1
      | cons t rest => simp at hf
  | succ fuel ih =>
    obtain ⟨ihp, ihb, ihl⟩ := ih
    refine ⟨?_, ?_, ?_⟩
    · intro ts hf hw
      cases ts with
      | nil => exact absurd rfl hw.1
      | cons t rest =>
        have hwr : t ≠ Token.Eof → wellTerminated rest :=
          fun hne => wellTerminated_tail hw hne
        cases t with
        | Number n => exact hwr (by simp)
        | String s => exact hwr (by simp)
        | Identifier i => exact hwr (by simp)
        | LeftParentheses =>
          simp only [prefixGo]
          split
          · rename_i e heq
            exact parserOkErr_error (ihb 0 rest (by simp at hf; omega)
              (hwr (by simp))) heq
          · rename_i e2 r1 hr1 heq
            have hw1 : wellTerminated r1 :=
              parserOkErr_ok (ihb 0 rest (by simp at hf; omega)
                (hwr (by simp))) heq
            split
            · rename_i e3 heq2
              exact expect_token_error_shape hw1.1 heq2
            · rename_i r2 heq2
              have := expect_token_ok_shape heq2
              subst this
              exact wellTerminated_tail hw1 (by simp)
        | Minus =>
          simp only [prefixGo]
          split
          · rename_i e heq
            exact parserOkErr_error (ihb 0 rest (by simp at hf; omega)
              (hwr (by simp))) heq
          · rename_i e2 r1 hr1 heq
            exact parserOkErr_ok (ihb 0 rest (by simp at hf; omega)
              (hwr (by simp))) heq
        | Plus =>
          simp only [prefixGo]
          split
          · rename_i e heq
            exact parserOkErr_error (ihb 0 rest (by simp at hf; omega)
              (hwr (by simp))) heq
          · rename_i e2 r1 hr1 heq
            exact parserOkErr_ok (ihb 0 rest (by simp at hf; omega)
              (hwr (by simp))) heq
        | Keyword k =>
          cases k with
          | True => exact hwr (by simp)
          | False => exact hwr (by simp)
          | Not =>
            simp only [prefixGo]
            split
            · rename_i e heq
              exact parserOkErr_error (ihb 0 rest (by simp at hf; omega)
                (hwr (by simp))) heq
            · rename_i e2 r1 hr1 heq
              exact parserOkErr_ok (ihb 0 rest (by simp at hf; omega)
                (hwr (by simp))) heq
          | _ => exact fun hq => nomatch hq
        | _ => exact fun hq => nomatch hq
    · intro minPrec ts hf hw
      simp only [binexpGo]
      split
      · rename_i e heq
        exact parserOkErr_error (ihp ts (by omega) hw) heq
      · rename_i left r1 hr1 heq
        have hw1 : wellTerminated r1 :=
          parserOkErr_ok (ihp ts (by omega) hw) heq
        split
        · rename_i e2 heq2
          exact parserOkErr_error (ihl minPrec left r1 (by omega) hw1) heq2
        · rename_i e3 r2 hr2 heq2
          exact parserOkErr_ok (ihl minPrec left r1 (by omega) hw1) heq2
    · intro minPrec left ts hf hw
      cases ts with
      | nil => exact absurd rfl hw.1
      | cons t rest =>
        simp only [binloopGo]
        split
        · exact hw
        · split
          · exact hw
          · split
            · rename_i e heq
              exact parserOkErr_error (parse_binary_operator_noEOF hw) heq
            · rename_i op ts1 heq
              have hts1 : ts1 = rest := parse_binary_operator_ok_tail heq
              obtain ⟨t2, hts, hne2⟩ := parse_binary_operator_ok_shape heq
              have ht2 : t2 = t := by
                rw [hts1] at hts
                simp at hts
                exact hts.symm
              have hw1 : wellTerminated ts1 := by
                rw [hts1]
                exact wellTerminated_tail hw (ht2 ▸ hne2)
              split
              · rename_i e2 heq2
                exact parserOkErr_error
                  (ihb (get_binary_precedence t + 1) ts1
                    (by rw [hts1]; simp at hf; omega) hw1) heq2
              · rename_i right r2 hr2 heq2
                have hw2 : wellTerminated r2 :=
                  parserOkErr_ok
                    (ihb (get_binary_precedence t + 1) ts1
                      (by rw [hts1]; simp at hf; omega) hw1) heq2
                have hr2b : r2.length < rest.length := by
                  rw [← hts1]
                  exact hr2
                split
                · rename_i e3 heq3
                  exact parserOkErr_error
                    (ihl minPrec (.BinaryOperation left op right) r2
                      (by simp at hf; omega) hw2) heq3
                · rename_i e4 r3 hr3 heq3
                  exact parserOkErr_ok
                    (ihl minPrec (.BinaryOperation left op right) r2
                      (by simp at hf; omega) hw2) heq3

theorem parse_expression_noEOF {ts : List Token} (hw : wellTerminated ts) :
    parserOkErr (parse_expression ts) (fun p => wellTerminated p.2) := by
  have hb := (expr_noEOF (2 * ts.length + 1)).2.1 0 ts (Nat.le_refl _) hw
  unfold parse_expression parse_binary_expression
  rcases hbe : binexpGo (2 * ts.length + 1) 0 ts (Nat.le_refl _)
    with e | ⟨e2, r, hr⟩
  · rw [hbe] at hb
    simpa [Except.map, parserOkErr] using hb
  · rw [hbe] at hb
    simpa [Except.map, parserOkErr] using hb

theorem orderby_direction_wt {e : Expression} {ts : List Token}
    {e2 : Expression} {r2 : List Token} (hw : wellTerminated ts)
    (h : orderby_direction e ts = (e2, r2)) : wellTerminated r2 := by
  unfold orderby_direction at h
  split at h <;> simp at h <;>
    first
      | (rw [← h.2]
         exact wellTerminated_tail hw (by simp))
      | (rw [← h.2]
         exact hw)

theorem exprListGo_noEOF (fuel : Nat) :
    ∀ (acc : List Expression) (ts : List Token) (hf : ts.length < fuel),
      wellTerminated ts →
      parserOkErr (exprListGo fuel acc ts hf) (fun p => wellTerminated p.2) := by
  induction fuel with
  | zero =>
    intro acc ts hf hw
    exact absurd hf (by omega)
  | succ fuel ih =>
    intro acc ts hf hw
    simp only [exprListGo]
    split
    · rename_i e heq
      exact parserOkErr_error (parse_expression_noEOF hw) heq
    · rename_i e r heq
      have hw1 : wellTerminated r := parserOkErr_ok (parse_expression_noEOF hw) heq
      split
      · rename_i r2
        exact ih _ r2 _ (wellTerminated_tail hw1 (by simp))
      · exact hw1
      · exact hw1
      · exact fun hq => nomatch hq
      · exact absurd rfl hw1.1

theorem orderbyGo_noEOF (fuel : Nat) :
    ∀ (acc : List Expression) (ts : List Token) (hf : ts.length < fuel),
      wellTerminated ts →
      parserOkErr (orderbyGo fuel acc ts hf) (fun p => wellTerminated p.2) := by
  induction fuel with
  | zero =>
    intro acc ts hf hw
    exact absurd hf (by omega)
  | succ fuel ih =>
    intro acc ts hf hw
    simp only [orderbyGo]
    split
    · rename_i e heq
      exact parserOkErr_error (parse_expression_noEOF hw) heq
    · rename_i e r heq
      have hw1 : wellTerminated r :=
        parserOkErr_ok (parse_expression_noEOF hw) heq
      have hw2 : wellTerminated (orderby_direction e r).2 :=
        orderby_direction_wt hw1 rfl
      split
      · rename_i heqx heqy
        apply ih
        rw [heqx] at hw2
        exact wellTerminated_tail hw2 (by simp)
      · exact hw2

theorem select_tail_noEOF {columns : List Expression} {fromName : String}
    {whereClause : Option Expression} {ts : List Token}
    (hw : wellTerminated ts) :
    parserOkErr (select_tail columns fromName whereClause ts)
      (fun _ => True) := by
  unfold select_tail
  split
  · rename_i ts1
    have hw1 : wellTerminated ts1 := wellTerminated_tail hw (by simp)
    split
    · rename_i e heq
      exact expect_keyword_error_shape hw1.1 heq
    · rename_i ts2 heq
      have hw2 : wellTerminated ts2 := parserOkErr_ok (expect_keyword_noEOF hw1) heq
      split
      · rename_i e heq2
        exact parserOkErr_error (orderbyGo_noEOF _ [] ts2 (by omega) hw2) heq2
      · rename_i ob ts3 heq2
        have hw3 : wellTerminated ts3 :=
          parserOkErr_ok (orderbyGo_noEOF _ [] ts2 (by omega) hw2) heq2
        split
        · rename_i e heq3
          exact expect_token_error_shape hw3.1 heq3
        · trivial
  · split
    · rename_i e heq
      exact expect_token_error_shape hw.1 heq
    · trivial

theorem parse_expressions_list_noEOF {ts : List Token}
    (hw : wellTerminated ts) :
    parserOkErr (parse_expressions_list ts) (fun p => wellTerminated p.2) := by
  unfold parse_expressions_list
  split
  · rename_i rest
    have hw1 : wellTerminated rest := wellTerminated_tail hw (by simp)
    split
    · exact hw1
    · exact fun hq => nomatch hq
    · exact absurd rfl hw1.1
  · rename_i hnw
    exact exprListGo_noEOF _ [] ts (by omega) hw

theorem parse_select_noEOF {ts : List Token}
    (hw : wellTerminated ts.tail) :
    parserOkErr (parse_select ts) (fun _ => True) := by
  unfold parse_select
  split
  · rename_i e heq
    exact parserOkErr_error (parse_expressions_list_noEOF hw) heq
  · rename_i columns ts2 heq
    have hw2 : wellTerminated ts2 :=
      parserOkErr_ok (parse_expressions_list_noEOF hw) heq
    split
    · rename_i ts3
      have hw3 : wellTerminated ts3 := wellTerminated_tail hw2 (by simp)
      split
      · rename_i e heq2
        exact name_identifier_error_shape hw3.1 heq2
      · rename_i fromName ts4 heq2
        have hw4 : wellTerminated ts4 :=
          parserOkErr_ok (name_identifier_noEOF hw3) heq2
        split
        · rename_i ts5
          have hw5 : wellTerminated ts5 := wellTerminated_tail hw4 (by simp)
          split
          · rename_i e heq3
            exact parserOkErr_error (parse_expression_noEOF hw5) heq3
          · rename_i w ts6 heq3
            have hw6 : wellTerminated ts6 :=
              parserOkErr_ok (parse_expression_noEOF hw5) heq3
            exact select_tail_noEOF hw6
        · exact select_tail_noEOF hw4
    · exact fun hq => nomatch hq

theorem constraintsGo_noEOF (fuel : Nat) :
    ∀ (acc : List Constraint) (ts : List Token) (hf : ts.length < fuel),
      wellTerminated ts →
      parserOkErr (constraintsGo fuel acc ts hf)
        (fun p => wellTerminated p.2.val) := by
  induction fuel with
  | zero =>
    intro acc ts hf hw
    exact absurd hf (by omega)
  | succ fuel ih =>
    intro acc ts hf hw
    cases ts with
    | nil => exact hw
    | cons t rest =>
      cases t with
      | Keyword k =>
        cases k with
        | Primary =>
          have hw1 : wellTerminated rest := wellTerminated_tail hw (by simp)
          simp only [constraintsGo]
          split
          · rename_i e heqk
            exact expect_keyword_error_shape hw1.1 heqk
          · rename_i r1 heqk
            have hwr1 : wellTerminated r1 :=
              parserOkErr_ok (expect_keyword_noEOF hw1) heqk
            have hl1 : r1.length < fuel := by
              have := expect_keyword_ok_length heqk
              simp at hf
              omega
            split
            · rename_i e heqc
              exact parserOkErr_error (ih _ r1 hl1 hwr1) heqc
            · rename_i cs r2 hr2 heqc
              exact parserOkErr_ok (ih _ r1 hl1 hwr1) heqc
        | Not =>
          have hw1 : wellTerminated rest := wellTerminated_tail hw (by simp)
          simp only [constraintsGo]
          split
          · rename_i e heqk
            exact expect_keyword_error_shape hw1.1 heqk
          · rename_i r1 heqk
            have hwr1 : wellTerminated r1 :=
              parserOkErr_ok (expect_keyword_noEOF hw1) heqk
            have hl1 : r1.length < fuel := by
              have := expect_keyword_ok_length heqk
              simp at hf
              omega
            split
            · rename_i e heqc
              exact parserOkErr_error (ih _ r1 hl1 hwr1) heqc
            · rename_i cs r2 hr2 heqc
              exact parserOkErr_ok (ih _ r1 hl1 hwr1) heqc
        | Check =>
          have hw1 : wellTerminated rest := wellTerminated_tail hw (by simp)
          cases rest with
          | nil => exact absurd rfl hw1.1
          | cons t2 r2 =>
            cases t2 with
            | LeftParentheses =>
              have hw2 : wellTerminated r2 := wellTerminated_tail hw1 (by simp)
              simp only [constraintsGo]
              split
              · rename_i e heqe
                exact parserOkErr_error (parse_expression_noEOF hw2) heqe
              · rename_i e2 r3 heqe
                have hw3 : wellTerminated r3 :=
                  parserOkErr_ok (parse_expression_noEOF hw2) heqe
                split
                · rename_i e heqt
                  exact expect_token_error_shape hw3.1 heqt
                · rename_i r4 heqt
                  have hw4 : wellTerminated r4 :=
                    parserOkErr_ok
                      (expect_token_noEOF (by simp) hw3) heqt
                  have hl4 : r4.length < fuel := by
                    have h1 := parse_expression_ok_length heqe
                    have h2 := expect_token_ok_length heqt
                    simp at hf h1
                    omega
                  split
                  · rename_i e heqc
                    exact parserOkErr_error (ih _ r4 hl4 hw4) heqc
                  · rename_i cs r5 hr5 heqc
                    exact parserOkErr_ok (ih _ r4 hl4 hw4) heqc
            | _ => exact fun hq => nomatch hq
        | Foreign =>
          have hw1 : wellTerminated rest := wellTerminated_tail hw (by simp)
          simp only [constraintsGo]
          split
          · rename_i e heqk
            exact expect_keyword_error_shape hw1.1 heqk
          · rename_i r1 heqk
            have hwr1 : wellTerminated r1 :=
              parserOkErr_ok (expect_keyword_noEOF hw1) heqk
            split
            · rename_i e heq1
              exact expect_token_error_shape hwr1.1 heq1
            · rename_i r2 heq1
              have hwr2 : wellTerminated r2 :=
                parserOkErr_ok (expect_token_noEOF (by simp) hwr1) heq1
              split
              · rename_i e heq2
                exact fk_identifier_error_shape heq2
              · rename_i col r3 heq2
                have hwr3 : wellTerminated r3 :=
                  parserOkErr_ok (fk_identifier_noEOF hwr2) heq2
                split
                · rename_i e heq3
                  exact expect_token_error_shape hwr3.1 heq3
                · rename_i r4 heq3
                  have hwr4 : wellTerminated r4 :=
                    parserOkErr_ok (expect_token_noEOF (by simp) hwr3) heq3
                  split
                  · rename_i e heq4
                    exact expect_keyword_error_shape hwr4.1 heq4
                  · rename_i r5 heq4
                    have hwr5 : wellTerminated r5 :=
                      parserOkErr_ok (expect_keyword_noEOF hwr4) heq4
                    split
                    · rename_i e heq5
                      exact fk_identifier_error_shape heq5
                    · rename_i reft r6 heq5
                      have hwr6 : wellTerminated r6 :=
                        parserOkErr_ok (fk_identifier_noEOF hwr5) heq5
                      split
                      · rename_i e heq6
                        exact expect_token_error_shape hwr6.1 heq6
                      · rename_i r7 heq6
                        have hwr7 : wellTerminated r7 :=
                          parserOkErr_ok
                            (expect_token_noEOF (by simp) hwr6) heq6
                        split
                        · rename_i e heq7
                          exact fk_identifier_error_shape heq7
                        · rename_i refc r8 heq7
                          have hwr8 : wellTerminated r8 :=
                            parserOkErr_ok (fk_identifier_noEOF hwr7) heq7
                          split
                          · rename_i e heq8
                            exact expect_token_error_shape hwr8.1 heq8
                          · rename_i r9 heq8
                            have hwr9 : wellTerminated r9 :=
                              parserOkErr_ok
                                (expect_token_noEOF (by simp) hwr8) heq8
                            have hl9 : r9.length < fuel := by
                              have a1 := expect_keyword_ok_length heqk
                              have a2 := expect_token_ok_length heq1
                              have a3 := fk_identifier_ok_length heq2
                              have a4 := expect_token_ok_length heq3
                              have a5 := expect_keyword_ok_length heq4
                              have a6 := fk_identifier_ok_length heq5
                              have a7 := expect_token_ok_length heq6
                              have a8 := fk_identifier_ok_length heq7
                              have a9 := expect_token_ok_length heq8
                              simp at hf
                              omega
                            split
                            · rename_i e heqc
                              exact parserOkErr_error (ih _ r9 hl9 hwr9) heqc
                            · rename_i cs r10 hr10 heqc
                              exact parserOkErr_ok (ih _ r9 hl9 hwr9) heqc
        | _ => exact hw
      | _ => exact hw

theorem parse_column_definitionAux_noEOF {ts : List Token}
    (hw : wellTerminated ts) :
    parserOkErr (parse_column_definitionAux ts)
      (fun p => wellTerminated p.2.val) := by
  unfold parse_column_definitionAux
  split
  · rename_i e heqn
    exact name_identifier_error_shape hw.1 heqn
  · rename_i colName ts1 heqn
    have hw1 : wellTerminated ts1 :=
      parserOkErr_ok (name_identifier_noEOF hw) heqn
    split
    · rename_i ts2
      have hw2 : wellTerminated ts2 := wellTerminated_tail hw1 (by simp)
      split
      · rename_i e heqc
        exact parserOkErr_error (constraintsGo_noEOF _ [] ts2 (by omega) hw2)
          heqc
      · rename_i cs r hr heqc
        exact parserOkErr_ok (constraintsGo_noEOF _ [] ts2 (by omega) hw2)
          heqc
    · rename_i ts2
      have hw2 : wellTerminated ts2 := wellTerminated_tail hw1 (by simp)
      split
      · rename_i e heqc
        exact parserOkErr_error (constraintsGo_noEOF _ [] ts2 (by omega) hw2)
          heqc
      · rename_i cs r hr heqc
        exact parserOkErr_ok (constraintsGo_noEOF _ [] ts2 (by omega) hw2)
          heqc
    · rename_i ts2
      have hw2 : wellTerminated ts2 := wellTerminated_tail hw1 (by simp)
      split
      · rename_i ts3
        have hw3 : wellTerminated ts3 := wellTerminated_tail hw2 (by simp)
        split
        · rename_i n ts4
          have hw4 : wellTerminated ts4 := wellTerminated_tail hw3 (by simp)
          split
          · rename_i e heqt
            exact expect_token_error_shape hw4.1 heqt
          · rename_i ts5 heqt
            have hw5 : wellTerminated ts5 :=
              parserOkErr_ok (expect_token_noEOF (by simp) hw4) heqt
            split
            · rename_i e heqc
              exact parserOkErr_error
                (constraintsGo_noEOF _ [] ts5 (by omega) hw5) heqc
            · rename_i cs r hr heqc
              exact parserOkErr_ok
                (constraintsGo_noEOF _ [] ts5 (by omega) hw5) heqc
        · exact fun hq => nomatch hq
        · exact fun hq => nomatch hq
      · exact fun hq => nomatch hq
    · exact fun hq => nomatch hq
    · exact absurd rfl hw1.1

theorem createTableGo_noEOF (fuel : Nat) :
    ∀ (cols : List TableColumn) (ts : List Token) (hf : ts.length < fuel),
      wellTerminated ts →
      parserOkErr (createTableGo fuel cols ts hf)
        (fun p => wellTerminated p.2) := by
  induction fuel with
  | zero =>
    intro cols ts hf hw
    exact absurd hf (by omega)
  | succ fuel ih =>
    intro cols ts hf hw
    simp only [createTableGo]
    split
    · rename_i hrp
      cases ts with
      | nil => simp at hrp
      | cons t rest =>
        simp at hrp
        subst hrp
        exact wellTerminated_tail hw (by simp)
    · rename_i hrp
      split
      · rename_i e heqm
        by_cases hce : cols.isEmpty
        · simp [hce] at heqm
        · simp [hce] at heqm
          exact expect_token_error_shape hw.1 heqm
      · rename_i ts1 heqm
        have hw1 : wellTerminated ts1 := by
          by_cases hce : cols.isEmpty
          · simp [hce] at heqm
            rw [← heqm]
            exact hw
          · simp [hce] at heqm
            have h2 := expect_token_ok_shape heqm
            rw [h2] at hw
            exact wellTerminated_tail hw (by simp)
        have hl1 : ts1.length ≤ ts.length := by
          by_cases hce : cols.isEmpty
          · simp [hce] at heqm
            rw [heqm]
          · simp [hce] at heqm
            exact Nat.le_of_lt (expect_token_ok_length heqm)
        split
        · rename_i ts2
          have hw2 : wellTerminated ts2 := wellTerminated_tail hw1 (by simp)
          split
          · rename_i e heqk
            exact expect_keyword_error_shape hw2.1 heqk
          · rename_i r1 heqk
            have hwr1 : wellTerminated r1 :=
              parserOkErr_ok (expect_keyword_noEOF hw2) heqk
            split
            · rename_i e heq1
              exact expect_token_error_shape hwr1.1 heq1
            · rename_i r2 heq1
              have hwr2 : wellTerminated r2 :=
                parserOkErr_ok (expect_token_noEOF (by simp) hwr1) heq1
              split
              · rename_i e heq2
                exact fk_identifier_error_shape heq2
              · rename_i col r3 heq2
                have hwr3 : wellTerminated r3 :=
                  parserOkErr_ok (fk_identifier_noEOF hwr2) heq2
                split
                · rename_i e heq3
                  exact expect_token_error_shape hwr3.1 heq3
                · rename_i r4 heq3
                  have hwr4 : wellTerminated r4 :=
                    parserOkErr_ok (expect_token_noEOF (by simp) hwr3) heq3
                  split
                  · rename_i e heq4
                    exact expect_keyword_error_shape hwr4.1 heq4
                  · rename_i r5 heq4
                    have hwr5 : wellTerminated r5 :=
                      parserOkErr_ok (expect_keyword_noEOF hwr4) heq4
                    split
                    · rename_i e heq5
                      exact fk_identifier_error_shape heq5
                    · rename_i reft r6 heq5
                      have hwr6 : wellTerminated r6 :=
                        parserOkErr_ok (fk_identifier_noEOF hwr5) heq5
                      split
                      · rename_i e heq6
                        exact expect_token_error_shape hwr6.1 heq6
                      · rename_i r7 heq6
                        have hwr7 : wellTerminated r7 :=
                          parserOkErr_ok (expect_token_noEOF (by simp) hwr6)
                            heq6
                        split
                        · rename_i e heq7
                          exact fk_identifier_error_shape heq7
                        · rename_i refc r8 heq7
                          have hwr8 : wellTerminated r8 :=
                            parserOkErr_ok (fk_identifier_noEOF hwr7) heq7
                          split
                          · rename_i e heq8
                            exact expect_token_error_shape hwr8.1 heq8
                          · rename_i r9 heq8
                            have hwr9 : wellTerminated r9 :=
                              parserOkErr_ok
                                (expect_token_noEOF (by simp) hwr8) heq8
                            have hl9 : r9.length < fuel := by
                              have a1 := expect_keyword_ok_length heqk
                              have a2 := expect_token_ok_length heq1
                              have a3 := fk_identifier_ok_length heq2
                              have a4 := expect_token_ok_length heq3
                              have a5 := expect_keyword_ok_length heq4
                              have a6 := fk_identifier_ok_length heq5
                              have a7 := expect_token_ok_length heq6
                              have a8 := fk_identifier_ok_length heq7
                              have a9 := expect_token_ok_length heq8
                              simp at hl1
                              omega
                            split
                            · rename_i cols2 hatt
                              exact ih cols2 r9 hl9 hwr9
                            · exact fun hq => nomatch hq
        · rename_i hny
          split
          · rename_i e heqcd
            exact parserOkErr_error (parse_column_definitionAux_noEOF hw1)
              heqcd
          · rename_i col r hr heqcd
            have hlr : r.length < fuel := by omega
            exact ih (cols ++ [col]) r hlr
              (parserOkErr_ok (parse_column_definitionAux_noEOF hw1) heqcd)

theorem parse_create_table_noEOF {ts : List Token} (hw : wellTerminated ts) :
    parserOkErr (parse_create_table ts) (fun _ => True) := by
  unfold parse_create_table
  split
  · rename_i e heqk
    exact expect_keyword_error_shape hw.1 heqk
  · rename_i ts1 heqk
    have hw1 : wellTerminated ts1 :=
      parserOkErr_ok (expect_keyword_noEOF hw) heqk
    split
    · rename_i e heqn
      exact name_identifier_error_shape hw1.1 heqn
    · rename_i tname ts2 heqn
      have hw2 : wellTerminated ts2 :=
        parserOkErr_ok (name_identifier_noEOF hw1) heqn
      split
      · rename_i e heqp
        exact expect_token_error_shape hw2.1 heqp
      · rename_i ts3 heqp
        have hw3 : wellTerminated ts3 :=
          parserOkErr_ok (expect_token_noEOF (by simp) hw2) heqp
        split
        · rename_i e heqg
          exact parserOkErr_error (createTableGo_noEOF _ [] ts3 (by omega) hw3)
            heqg
        · rename_i cols ts4 heqg
          have hw4 : wellTerminated ts4 :=
            parserOkErr_ok (createTableGo_noEOF _ [] ts3 (by omega) hw3) heqg
          split
          · rename_i e heqs
            exact expect_token_error_shape hw4.1 heqs
          · trivial

theorem parse_create_index_noEOF {ts : List Token} (hw : wellTerminated ts) :
    parserOkErr (parse_create_index ts) (fun _ => True) := by
  unfold parse_create_index
  have huniq : ∀ p, p = (match ts with
      | Token.Keyword Keyword.Unique :: ts1 => (true, ts1)
      | _ => (false, ts)) → wellTerminated p.2 := by
    intro p hp
    split at hp
    · rename_i ts1
      rw [hp]
      exact wellTerminated_tail hw (by simp)
    · rw [hp]
      exact hw
  split
  rename_i is_unique ts1 hmt
  have hw1 : wellTerminated ts1 := huniq (is_unique, ts1) hmt.symm
  split
  · rename_i e heq1
    exact expect_keyword_error_shape hw1.1 heq1
  · rename_i ts2 heq1
    have hw2 : wellTerminated ts2 :=
      parserOkErr_ok (expect_keyword_noEOF hw1) heq1
    split
    · rename_i e heq2
      exact name_identifier_error_shape hw2.1 heq2
    · rename_i iname ts3 heq2
      have hw3 : wellTerminated ts3 :=
        parserOkErr_ok (name_identifier_noEOF hw2) heq2
      split
      · rename_i e heq3
        exact expect_keyword_error_shape hw3.1 heq3
      · rename_i ts4 heq3
        have hw4 : wellTerminated ts4 :=
          parserOkErr_ok (expect_keyword_noEOF hw3) heq3
        split
        · rename_i e heq4
          exact name_identifier_error_shape hw4.1 heq4
        · rename_i tname ts5 heq4
          have hw5 : wellTerminated ts5 :=
            parserOkErr_ok (name_identifier_noEOF hw4) heq4
          split
          · rename_i e heq5
            exact expect_token_error_shape hw5.1 heq5
          · rename_i ts6 heq5
            have hw6 : wellTerminated ts6 :=
              parserOkErr_ok (expect_token_noEOF (by simp) hw5) heq5
            split
            · rename_i e heq6
              exact name_identifier_error_shape hw6.1 heq6
            · rename_i cname ts7 heq6
              have hw7 : wellTerminated ts7 :=
                parserOkErr_ok (name_identifier_noEOF hw6) heq6
              split
              · rename_i e heq7
                exact expect_token_error_shape hw7.1 heq7
              · rename_i ts8 heq7
                have hw8 : wellTerminated ts8 :=
                  parserOkErr_ok (expect_token_noEOF (by simp) hw7) heq7
                split
                · rename_i e heq8
                  exact expect_token_error_shape hw8.1 heq8
                · trivial

theorem parse_noEOF {ts : List Token} (hw : wellTerminated ts) :
    parserOkErr (parse ts) (fun _ => True) := by
  unfold parse
  split
  · rename_i rest
    exact parse_select_noEOF (wellTerminated_tail hw (by simp))
  · rename_i rest
    split
    · exact parse_create_table_noEOF (wellTerminated_tail hw (by simp))
    · exact parse_create_index_noEOF (wellTerminated_tail hw (by simp))
    · exact parse_create_index_noEOF (wellTerminated_tail hw (by simp))
    · exact fun hq => nomatch hq
    · rename_i hne
      have := wellTerminated_tail hw (by simp)
      exact absurd rfl this.1
  · exact fun hq => nomatch hq
  · exact absurd rfl hw.1

theorem tokenize_ok_wellTerminated {s : String} {toks : List Token}
    (h : tokenize s = .ok toks) : wellTerminated toks := by
  unfold tokenize Tokenizer.tokenize Tokenizer.new tokenizeLoop at h
  rcases hgo : tokenizeGo s.data.length s.data false [] (Nat.le_refl _)
    with ⟨res, input2, flag2⟩
  rw [hgo] at h
  simp at h
  subst h
  obtain ⟨mid, hmid, hnm⟩ :=
    tokenizeGo_ok_shape s.data.length s.data false [] (Nat.le_refl _)
      toks input2 flag2 hgo
  subst hmid
  refine ⟨by simp, ?_, ?_⟩
  · simp
  · simp [List.dropLast_concat]
    exact hnm


/-- C1: each unary operator (`-`, `+`, `NOT`) binds looser than every binary
operator: `parse_prefix_expression` on a unary-operator token recurses into the
full `parse_expression` (minimum precedence 0) and wraps its entire result, so
`SELECT -1+2` parses as `-(1+2)`. -/
theorem claim_c1_unary_binds_looser :
    (∀ ts : List Token, parse_prefix_expression (Token.Minus :: ts) =
      (parse_expression ts).map fun p =>
        (Expression.UnaryOperation p.1 .Minus, p.2)) ∧
    (∀ ts : List Token, parse_prefix_expression (Token.Plus :: ts) =
      (parse_expression ts).map fun p =>
        (Expression.UnaryOperation p.1 .Plus, p.2)) ∧
    (∀ ts : List Token, parse_prefix_expression (Token.Keyword .Not :: ts) =
      (parse_expression ts).map fun p =>
        (Expression.UnaryOperation p.1 .Not, p.2)) ∧
    parse_sql "SELECT -1+2 FROM T;" =
      .ok (.Select
        [.UnaryOperation (.BinaryOperation (.Number 1) .Plus (.Number 2))
          .Minus] "T" none []) := by
  refine ⟨?_, ?_, ?_, by rfl⟩
  · intro ts
    have hfe : parse_prefix_expression (Token.Minus :: ts) =
        (prefixGo (2 * ts.length + 1 + 1) (Token.Minus :: ts)
          (by simp; omega)).map (fun p => (p.1, p.2.val)) := rfl
    rw [hfe]
    unfold parse_expression parse_binary_expression
    rcases hbi : binexpGo (2 * ts.length + 1) 0 ts (Nat.le_refl _)
      with ee | ⟨pe, pr, hpr⟩ <;>
      (simp only [prefixGo]
       rw [hbi]
       simp [Except.map])
  · intro ts
    have hfe : parse_prefix_expression (Token.Plus :: ts) =
        (prefixGo (2 * ts.length + 1 + 1) (Token.Plus :: ts)
          (by simp; omega)).map (fun p => (p.1, p.2.val)) := rfl
    rw [hfe]
    unfold parse_expression parse_binary_expression
    rcases hbi : binexpGo (2 * ts.length + 1) 0 ts (Nat.le_refl _)
      with ee | ⟨pe, pr, hpr⟩ <;>
      (simp only [prefixGo]
       rw [hbi]
       simp [Except.map])
  · intro ts
    have hfe : parse_prefix_expression (Token.Keyword .Not :: ts) =
        (prefixGo (2 * ts.length + 1 + 1) (Token.Keyword .Not :: ts)
          (by simp; omega)).map (fun p => (p.1, p.2.val)) := rfl
    rw [hfe]
    unfold parse_expression parse_binary_expression
    rcases hbi : binexpGo (2 * ts.length + 1) 0 ts (Nat.le_refl _)
      with ee | ⟨pe, pr, hpr⟩ <;>
      (simp only [prefixGo]
       rw [hbi]
       simp [Except.map])

/-- C2: the precedence table is Or=1, And=2, equality operators=3,
comparisons=4, plus and minus=5, star and divide=6; the climbing loop stops,
without consuming, on `;`, `,`, `FROM`, `)`,
`ORDER`, `ASC`, `DESC` and on any operator of precedence below the current
minimum; recursion on the right-hand side uses the operator's precedence plus
one, so every binary operator is left-associative (`1-2-3` = `(1-2)-3`) and
`*` binds tighter than `+` on either side. -/
theorem claim_c2_precedence_climbing :
    (get_binary_precedence (.Keyword .Or) = 1 ∧
     get_binary_precedence (.Keyword .And) = 2 ∧
     get_binary_precedence .Equal = 3 ∧
     get_binary_precedence .NotEqual = 3 ∧
     get_binary_precedence .LessThan = 4 ∧
     get_binary_precedence .LessThanOrEqual = 4 ∧
     get_binary_precedence .GreaterThan = 4 ∧
     get_binary_precedence .GreaterThanOrEqual = 4 ∧
     get_binary_precedence .Plus = 5 ∧
     get_binary_precedence .Minus = 5 ∧
     get_binary_precedence .Star = 6 ∧
     get_binary_precedence .Divide = 6) ∧
    (∀ (fuel minPrec : Nat) (left : Expression) (t : Token)
       (rest : List Token) (h : 2 * (t :: rest).length ≤ fuel + 1),
       (t = .Semicolon ∨ t = .Comma ∨ t = .Keyword .From ∨
        t = .RightParentheses ∨ t = .Keyword .Order ∨ t = .Keyword .Asc ∨
        t = .Keyword .Desc) →
       binloopGo (fuel + 1) minPrec left (t :: rest) h =
         .ok (left, ⟨t :: rest, Nat.le_refl _⟩)) ∧
    (∀ (fuel minPrec : Nat) (left : Expression) (t : Token)
       (rest : List Token) (h : 2 * (t :: rest).length ≤ fuel + 1),
       ¬(t = .Semicolon ∨ t = .Comma ∨ t = .Keyword .From ∨
         t = .RightParentheses ∨ t = .Keyword .Order ∨ t = .Keyword .Asc ∨
         t = .Keyword .Desc) →
       get_binary_precedence t < minPrec →
       binloopGo (fuel + 1) minPrec left (t :: rest) h =
         .ok (left, ⟨t :: rest, Nat.le_refl _⟩)) ∧
    parse_sql "SELECT 1+2*3 FROM T;" =
      .ok (.Select
        [.BinaryOperation (.Number 1) .Plus
          (.BinaryOperation (.Number 2) .Multiply (.Number 3))]
        "T" none []) ∧
    parse_sql "SELECT 1*2+3 FROM T;" =
      .ok (.Select
        [.BinaryOperation
          (.BinaryOperation (.Number 1) .Multiply (.Number 2))
          .Plus (.Number 3)]
        "T" none []) ∧
    parse_sql "SELECT 1-2-3 FROM T;" =
      .ok (.Select
        [.BinaryOperation
          (.BinaryOperation (.Number 1) .Minus (.Number 2))
          .Minus (.Number 3)]
        "T" none []) := by
  refine ⟨by decide, ?_, ?_, by rfl, by rfl, by rfl⟩
  · intro fuel minPrec left t rest h ht
    simp only [binloopGo]
    rw [if_pos ht]
  · intro fuel minPrec left t rest h ht hp
    simp only [binloopGo]
    rw [if_neg ht, if_pos hp]

/-- C3: the tokenizer emits `*` as `Wildcard` exactly when the
`is_after_select` flag is set and the previously emitted token (if any) is
`SELECT` or a comma, and as the arithmetic `Star` otherwise; the flag is set by
`SELECT` and cleared by `FROM`, so `SELECT * FROM A * B` lexes the first `*`
as `Wildcard` and the second as `Star`, and the parser turns a `Wildcard`
projection into `Identifier "*"` while `A * B` parses as multiplication. -/
theorem claim_c3_wildcard_context :
    (∀ (rest : List Char) (flag : Bool) (prev : Token) (acc : List Token),
      tokStep '*' rest flag (prev :: acc) =
        .emit (if flag ∧ (prev = Token.Keyword .Select ∨ prev = Token.Comma)
          then Token.Wildcard else Token.Star) flag rest) ∧
    (∀ (rest : List Char) (flag : Bool) (acc : List Token),
      tokStep '*' rest flag acc =
        .emit (if flag ∧ (∀ t ∈ acc.head?,
            t = Token.Keyword .Select ∨ t = Token.Comma)
          then Token.Wildcard else Token.Star) flag rest) ∧
    tokenize "SELECT * FROM A * B" =
      .ok [Token.Keyword .Select, Token.Wildcard, Token.Keyword .From,
        Token.Identifier "A", Token.Star, Token.Identifier "B", Token.Eof] ∧
    tokenize "SELECT A, * FROM T" =
      .ok [Token.Keyword .Select, Token.Identifier "A", Token.Comma,
        Token.Wildcard, Token.Keyword .From, Token.Identifier "T",
        Token.Eof] ∧
    parse_sql "SELECT * FROM T;" = .ok (.Select [.Identifier "*"] "T" none []) ∧
    parse_sql "SELECT A * B FROM T;" =
      .ok (.Select
        [.BinaryOperation (.Identifier "A") .Multiply (.Identifier "B")]
        "T" none []) := by
  refine ⟨?_, ?_, by rfl, by rfl, by rfl, by rfl⟩
  · intro rest flag prev acc
    by_cases hf : flag
    · by_cases hp : (prev = Token.Keyword .Select ∨ prev = Token.Comma)
      · simp [tokStep, tokStepP, hf, hp]
      · simp [tokStep, tokStepP, hf, hp]
    · simp [tokStep, tokStepP, hf]
  · intro rest flag acc
    rfl


/-- C4: a table-level `FOREIGN KEY (col) REFERENCES t(c)` clause decorates an
earlier column: `attach_foreign_key` returns `none` exactly when no column of
the list built so far is named `col`, and on success it appends the
`ForeignKey` constraint to the first column named `col`, leaving every other
column untouched and appending no new column; when it returns `none` the
whole `CREATE TABLE` parse fails with `InvalidForeignKey`. -/
theorem claim_c4_fk_earlier_column :
    (∀ (c t rc : String) (cols : List TableColumn),
      attach_foreign_key cols c t rc = none ↔
        ∀ col ∈ cols, col.column_name ≠ c) ∧
    (∀ (c t rc : String) (cols cols2 : List TableColumn),
      attach_foreign_key cols c t rc = some cols2 →
      ∃ (pre : List TableColumn) (col : TableColumn)
        (post : List TableColumn),
        cols = pre ++ col :: post ∧
        (∀ p ∈ pre, p.column_name ≠ c) ∧
        col.column_name = c ∧
        cols2 = pre ++ { col with constraints := col.constraints ++
          [.ForeignKey c t rc] } :: post) ∧
    parse_sql
      "CREATE TABLE O (ID INT, UID INT, FOREIGN KEY (UID) REFERENCES U(ID));" =
      .ok (.CreateTable "O"
        [⟨"ID", .Int, []⟩, ⟨"UID", .Int, [.ForeignKey "UID" "U" "ID"]⟩]) ∧
    parse_sql
      "CREATE TABLE O (ID INT, FOREIGN KEY (UID) REFERENCES U(ID));" =
      .error (.InvalidForeignKey "Column UID not found in table") := by
  refine ⟨?_, ?_, by rfl, by rfl⟩
  · intro c t rc cols
    induction cols with
    | nil => simp [attach_foreign_key]
    | cons col others ih =>
      by_cases hc : col.column_name = c
      · simp [attach_foreign_key, hc]
      · rcases h : attach_foreign_key others c t rc with _ | o2
        · simp only [attach_foreign_key, if_neg hc, h]
          simp [hc]
          exact ih.mp h
        · simp only [attach_foreign_key, if_neg hc, h]
          simp only [List.mem_cons]
          constructor
          · intro hx
            cases hx
          · rintro hall
            have := ih.mpr (fun x hx => hall x (Or.inr hx))
            rw [this] at h
            cases h
  · intro c t rc cols
    induction cols with
    | nil =>
      intro cols2 h
      simp [attach_foreign_key] at h
    | cons col others ih =>
      intro cols2 h
      simp only [attach_foreign_key] at h
      by_cases hc : col.column_name = c
      · rw [if_pos hc] at h
        simp only [Option.some.injEq] at h
        refine ⟨[], col, others, by simp, by simp, hc, ?_⟩
        rw [← h]
        simp
      · rw [if_neg hc] at h
        rcases h2 : attach_foreign_key others c t rc with _ | o2 <;>
          rw [h2] at h
        · cases h
        · simp only [Option.some.injEq] at h
          obtain ⟨pre, colx, post, he1, he2, he3, he4⟩ := ih o2 h2
          refine ⟨col :: pre, colx, post, ?_, ?_, he3, ?_⟩
          · rw [he1]
            simp
          · intro p hp
            rcases List.mem_cons.mp hp with h3 | h3
            · rw [h3]
              exact hc
            · exact he2 p h3
          · rw [← h, he4]
            simp

/-- Witness instantiating the success conjunct of C4 on a one-column list. -/
theorem claim_c4_fk_earlier_column_witness :
    ∃ (pre : List TableColumn) (col : TableColumn) (post : List TableColumn),
      ([⟨"A", DBType.Int, []⟩] : List TableColumn) = pre ++ col :: post ∧
      (∀ p ∈ pre, p.column_name ≠ "A") ∧
      col.column_name = "A" ∧
      [(⟨"A", DBType.Int, [Constraint.ForeignKey "A" "U" "C"]⟩ : TableColumn)] =
        pre ++ { col with constraints := col.constraints ++
          [Constraint.ForeignKey "A" "U" "C"] } :: post :=
  claim_c4_fk_earlier_column.2.1 "A" "U" "C" [⟨"A", DBType.Int, []⟩]
    [⟨"A", DBType.Int, [Constraint.ForeignKey "A" "U" "C"]⟩] rfl

/-- Witness instantiating the stop conjuncts of C2 at a terminator and at a
low-precedence operator. -/
theorem claim_c2_precedence_climbing_witness :
    binloopGo (1 + 1) 0 (Expression.Number 7) [Token.Semicolon] (by decide) =
      .ok (Expression.Number 7, ⟨[Token.Semicolon], Nat.le_refl _⟩) ∧
    binloopGo (1 + 1) 9 (Expression.Number 7) [Token.Plus] (by decide) =
      .ok (Expression.Number 7, ⟨[Token.Plus], Nat.le_refl _⟩) :=
  ⟨claim_c2_precedence_climbing.2.1 1 0 (Expression.Number 7) Token.Semicolon
      [] (by decide) (Or.inl rfl),
   claim_c2_precedence_climbing.2.2.1 1 9 (Expression.Number 7) Token.Plus
      [] (by decide) (by decide) (by decide)⟩

/-- C5 counterexample: the claim says every mismatch inside the table-level
`FOREIGN KEY` clause yields `InvalidForeignKey`, never a generic
`UnexpectedToken`; but a missing `(column)` group after `KEY` is rejected by
`expect_token(LeftParentheses)` with a generic `UnexpectedToken` error. -/
theorem claim_c5_counterexample :
    parse_sql "CREATE TABLE T (ID INT, FOREIGN KEY REFERENCES U(ID));" =
      .error (.UnexpectedToken "LeftParentheses" "Keyword(References)") := by
  rfl

/-- C5 amended: inside the table-level `FOREIGN KEY` clause only the three
identifier positions (and the EOF-hit and undeclared-column cases) produce
`InvalidForeignKey`; the structural positions (`KEY`, the parentheses,
`REFERENCES`) go through `expect_keyword`/`expect_token`, whose errors are
always `UnexpectedEOF` or a generic `UnexpectedToken`, as the mismatch at
each concrete position shows. -/
theorem claim_c5_amended_fk_error_kinds :
    (∀ (w m : String) (ts : List Token) (e : Error),
      fk_identifier w m ts = .error e → ∃ msg, e = .InvalidForeignKey msg) ∧
    (∀ (k : Keyword) (ts : List Token) (e : Error),
      expect_keyword k ts = .error e →
        e = .UnexpectedEOF ∨ ∃ a b, e = .UnexpectedToken a b) ∧
    (∀ (t : Token) (ts : List Token) (e : Error),
      expect_token t ts = .error e →
        e = .UnexpectedEOF ∨ ∃ a b, e = .UnexpectedToken a b) ∧
    parse_sql "CREATE TABLE T (ID INT, FOREIGN BAR (ID) REFERENCES U(ID));" =
      .error (.UnexpectedToken "Key" "Identifier(\"BAR\")") ∧
    parse_sql "CREATE TABLE T (ID INT, FOREIGN KEY ID) REFERENCES U(ID));" =
      .error (.UnexpectedToken "LeftParentheses" "Identifier(\"ID\")") ∧
    parse_sql "CREATE TABLE T (ID INT, FOREIGN KEY (1) REFERENCES U(ID));" =
      .error (.InvalidForeignKey "Expected column name, found Number(1)") ∧
    parse_sql "CREATE TABLE T (ID INT, FOREIGN KEY (ID( REFERENCES U(ID));" =
      .error (.UnexpectedToken "RightParentheses" "LeftParentheses") ∧
    parse_sql "CREATE TABLE T (ID INT, FOREIGN KEY (ID) U(ID));" =
      .error (.UnexpectedToken "References" "Identifier(\"U\")") ∧
    parse_sql "CREATE TABLE T (ID INT, FOREIGN KEY (ID) REFERENCES 5(ID));" =
      .error (.InvalidForeignKey "Expected table name, found Number(5)") ∧
    parse_sql "CREATE TABLE T (ID INT, FOREIGN KEY (ID) REFERENCES U ID));" =
      .error (.UnexpectedToken "LeftParentheses" "Identifier(\"ID\")") ∧
    parse_sql "CREATE TABLE T (ID INT, FOREIGN KEY (ID) REFERENCES U(2));" =
      .error (.InvalidForeignKey "Expected column name, found Number(2)") ∧
    parse_sql "CREATE TABLE T (ID INT, FOREIGN KEY (ID) REFERENCES U(ID;" =
      .error (.UnexpectedToken "RightParentheses" "Semicolon") ∧
    parse_sql "CREATE TABLE T (ID INT, FOREIGN KEY (XX) REFERENCES U(ID));" =
      .error (.InvalidForeignKey "Column XX not found in table") := by
  refine ⟨?_, ?_, ?_, by rfl, by rfl, by rfl, by rfl, by rfl, by rfl,
    by rfl, by rfl, by rfl, by rfl⟩
  · intro w m ts e h
    cases ts with
    | nil =>
      simp [fk_identifier] at h
      exact ⟨m, h.symm⟩
    | cons t rest =>
      cases t <;> simp [fk_identifier] at h <;>
        exact ⟨_, h.symm⟩
  · intro k ts e h
    cases ts with
    | nil =>
      simp [expect_keyword] at h
      exact Or.inl h.symm
    | cons t rest =>
      cases t <;> simp only [expect_keyword] at h <;>
        first
          | (simp at h; exact Or.inr ⟨_, _, h.symm⟩)
          | (split at h <;> simp_all
             exact Or.inr ⟨_, _, h.symm⟩)
  · intro t ts e h
    cases ts with
    | nil =>
      simp [expect_token] at h
      exact Or.inl h.symm
    | cons x rest =>
      simp only [expect_token] at h
      split at h <;> simp_all
      exact Or.inr ⟨_, _, h.symm⟩

/-- Witness instantiating the three general conjuncts of the amended C5 at
concrete mismatches. -/
theorem claim_c5_amended_fk_error_kinds_witness :
    (∃ msg, Error.InvalidForeignKey "Expected column name, found Number(1)" =
      Error.InvalidForeignKey msg) ∧
    (Error.UnexpectedToken "Key" "Identifier(\"BAR\")" = Error.UnexpectedEOF ∨
      ∃ a b, Error.UnexpectedToken "Key" "Identifier(\"BAR\")" =
        Error.UnexpectedToken a b) ∧
    (Error.UnexpectedToken "Comma" "Semicolon" = Error.UnexpectedEOF ∨
      ∃ a b, Error.UnexpectedToken "Comma" "Semicolon" =
        Error.UnexpectedToken a b) :=
  ⟨claim_c5_amended_fk_error_kinds.1 "column name" "m" [Token.Number 1]
      (Error.InvalidForeignKey "Expected column name, found Number(1)") rfl,
   claim_c5_amended_fk_error_kinds.2.1 Keyword.Key
      [Token.Identifier "BAR"]
      (Error.UnexpectedToken "Key" "Identifier(\"BAR\")") rfl,
   claim_c5_amended_fk_error_kinds.2.2.1 Token.Comma [Token.Semicolon]
      (Error.UnexpectedToken "Comma" "Semicolon") rfl⟩


theorem lazyPulls_cache {toks : List Token} (htoks : toks ≠ []) :
    ∀ (fuel i : Nat) (t : Tokenizer), t.tokens = toks → t.current_token = i →
      toks.length - i < fuel →
      lazyPulls fuel t = (toks.drop i).map Except.ok := by
  intro fuel
  induction fuel with
  | zero => intro i t ht hi hlt; omega
  | succ fuel ih =>
    intro i t ht hi hlt
    simp only [lazyPulls, Tokenizer.next, ht, hi]
    rw [if_neg (by simp [Tokenizer.next, ht, htoks])]
    simp only [Tokenizer.nextFromCache, ht, hi]
    cases hidx : toks[i]? with
    | none =>
      have hge : toks.length ≤ i := by
        by_contra hc
        push_neg at hc
        rw [List.getElem?_eq_getElem hc] at hidx
        cases hidx
      rw [List.drop_eq_nil_of_le hge]
      simp
    | some tok =>
      have hlt2 : i < toks.length := by
        by_contra hc
        push_neg at hc
        rw [List.getElem?_eq_none hc] at hidx
        cases hidx
      have hdrop : toks.drop i = tok :: toks.drop (i + 1) := by
        rw [List.drop_eq_getElem_cons hlt2]
        rw [List.getElem?_eq_getElem hlt2] at hidx
        simp at hidx
        rw [hidx]
      rw [hdrop]
      simp only [List.map_cons]
      have := ih (i + 1) { t with current_token := i + 1 } (by simp [ht])
        (by simp) (by omega)
      rw [ht] at this
      rw [this]

/-- C6 counterexample: the claim says a lexical error is yielded once by the
lazy iterator and iteration then ends; but on input `"@"` the error leaves
the cache empty, so the second pull re-runs the scan and yields the same
error again instead of `none`. -/
theorem claim_c6_counterexample :
    (Tokenizer.new "@").next.1 =
      some (.error (.LexerError "Invalid character: @")) ∧
    ((Tokenizer.new "@").next.2.next.1 =
      some (.error (.LexerError "Invalid character: @"))) ∧
    ((Tokenizer.new "@").next.2.next.1 ≠ none) := by
  refine ⟨rfl, rfl, ?_⟩
  rw [show (Tokenizer.new "@").next.2.next.1 =
    some (.error (.LexerError "Invalid character: @")) from rfl]
  simp

/-- C6 amended: the lazy interface agrees with the eager `tokenize`: on a
successfully tokenized input the pulls replay exactly the cached token list
(each wrapped in `ok`) and then stop, and on a lexical error the first pull
yields precisely that error (iteration does not end afterwards, see the
counterexample). -/
theorem claim_c6_lazy_agrees :
    (∀ (s : String) (toks : List Token), tokenize s = .ok toks →
      ∀ fuel : Nat, toks.length < fuel →
        lazyPulls fuel (Tokenizer.new s) = toks.map Except.ok) ∧
    (∀ (s : String) (e : Error), tokenize s = .error e →
      (Tokenizer.new s).next.1 = some (.error e)) ∧
    lazyPulls 8 (Tokenizer.new "SELECT 1") =
      [Except.ok (Token.Keyword .Select), Except.ok (Token.Number 1),
        Except.ok Token.Eof] := by
  refine ⟨?_, ?_, by rfl⟩
  · intro s toks h fuel hfuel
    have hwt := tokenize_ok_wellTerminated h
    have htoks : toks ≠ [] := hwt.1
    cases fuel with
    | zero => omega
    | succ fuel =>
      simp only [lazyPulls, Tokenizer.next]
      rw [if_pos (by simp [Tokenizer.new])]
      rcases htk : (Tokenizer.new s).tokenize with ⟨res, t2⟩
      have hres : res = .ok toks := by
        have : (Tokenizer.new s).tokenize.1 = tokenize s := rfl
        rw [htk] at this
        simp at this
        rw [this, h]
      subst hres
      cases htoks2 : toks with
      | nil => exact absurd htoks2 htoks
      | cons t0 trest =>
        subst htoks2
        have hc := lazyPulls_cache htoks fuel 1
          { t2 with tokens := t0 :: trest, current_token := 1 } rfl rfl
          (by simp at hfuel ⊢; omega)
        simp [Tokenizer.nextFromCache, hc]
  · intro s e h
    simp only [Tokenizer.next]
    rw [if_pos (by simp [Tokenizer.new])]
    rcases htk : (Tokenizer.new s).tokenize with ⟨res, t2⟩
    have hres : res = .error e := by
      have : (Tokenizer.new s).tokenize.1 = tokenize s := rfl
      rw [htk] at this
      simp at this
      rw [this, h]
    subst hres
    rfl

/-- Witness instantiating both general conjuncts of the amended C6. -/
theorem claim_c6_lazy_agrees_witness :
    lazyPulls 4 (Tokenizer.new "SELECT 1") =
      [Token.Keyword .Select, Token.Number 1, Token.Eof].map Except.ok ∧
    (Tokenizer.new "@").next.1 =
      some (.error (.LexerError "Invalid character: @")) :=
  ⟨claim_c6_lazy_agrees.1 "SELECT 1"
      [Token.Keyword .Select, Token.Number 1, Token.Eof] rfl 4 (by decide),
   claim_c6_lazy_agrees.2.1 "@" (.LexerError "Invalid character: @") rfl⟩


/-- C7 counterexample: the claim says a projection list not followed by the
required `FROM` always fails with `MissingFromClause`; but the standalone
wildcard path of `parse_expressions_list` demands `FROM` through its own
check and reports a generic `UnexpectedToken` instead, as `SELECT *;`
shows. -/
theorem claim_c7_counterexample :
    parse_sql "SELECT *;" = .error (.UnexpectedToken "FROM" "Semicolon") ∧
    parse_sql "SELECT *;" ≠ .error .MissingFromClause := by
  refine ⟨by rfl, ?_⟩
  rw [show parse_sql "SELECT *;" =
    .error (.UnexpectedToken "FROM" "Semicolon") from rfl]
  simp

/-- C7 amended: when the (non-wildcard) projection list parses and the next
token is not the `FROM` keyword, `parse_select` fails with the specific
`MissingFromClause`; in particular `SELECT ID;` does, while the wildcard
path is the exception recorded in the counterexample. -/
theorem claim_c7_missing_from :
    (∀ (ts : List Token) (cols : List Expression) (ts2 : List Token),
      parse_expressions_list ts.tail = .ok (cols, ts2) →
      (∀ ts3, ts2 ≠ Token.Keyword .From :: ts3) →
      parse_select ts = .error .MissingFromClause) ∧
    parse_sql "SELECT ID;" = .error .MissingFromClause ∧
    parse_sql "SELECT ID FROM T;" =
      .ok (.Select [.Identifier "ID"] "T" none []) := by
  refine ⟨?_, by rfl, by rfl⟩
  intro ts cols ts2 h hne
  unfold parse_select
  rw [h]
  cases ts2 with
  | nil => rfl
  | cons t ts3 =>
    cases t <;> try rfl
    rename_i k
    cases k <;> try rfl
    exact absurd rfl (hne ts3)

/-- Witness instantiating the general conjunct of the amended C7 on the
token form of the input `SELECT ID;`. -/
theorem claim_c7_missing_from_witness :
    parse_select [Token.Keyword .Select, Token.Identifier "ID",
      Token.Semicolon, Token.Eof] = .error .MissingFromClause :=
  claim_c7_missing_from.1
    [Token.Keyword .Select, Token.Identifier "ID", Token.Semicolon, Token.Eof]
    [Expression.Identifier "ID"] [Token.Semicolon, Token.Eof] rfl
    (by intro ts3 hq; cases hq)

/-- C8: the `VARCHAR` column type requires a parenthesized numeric length:
without a `(` after `VARCHAR`, or with a non-number inside the parentheses,
the column definition fails with `InvalidVarcharLength` (never a generic
error), and when the length is present the parsed column carries exactly
`Varchar n`. -/
theorem claim_c8_varchar_length :
    (∀ (name : String) (ts2 : List Token),
      (∀ ts3, ts2 ≠ Token.LeftParentheses :: ts3) →
      ∃ msg, parse_column_definition
        (Token.Identifier name :: Token.Keyword .Varchar :: ts2) =
        .error (.InvalidVarcharLength msg)) ∧
    (∀ (name : String) (t : Token) (ts4 : List Token),
      (∀ n, t ≠ Token.Number n) →
      ∃ msg, parse_column_definition (Token.Identifier name ::
        Token.Keyword .Varchar :: Token.LeftParentheses :: t :: ts4) =
        .error (.InvalidVarcharLength msg)) ∧
    (∀ (name : String) (n : Nat) (ts4 : List Token) (col : TableColumn)
       (r : List Token),
      parse_column_definition (Token.Identifier name ::
        Token.Keyword .Varchar :: Token.LeftParentheses ::
        Token.Number n :: Token.RightParentheses :: ts4) = .ok (col, r) →
      col.column_name = name ∧ col.column_type = DBType.Varchar n) ∧
    parse_sql "CREATE TABLE T (NAME VARCHAR);" =
      .error (.InvalidVarcharLength "Missing VARCHAR length specification") ∧
    parse_sql "CREATE TABLE T (NAME VARCHAR(ABC));" =
      .error (.InvalidVarcharLength "Expected number, found Identifier(\"ABC\")") ∧
    parse_sql "CREATE TABLE T (NAME VARCHAR(10));" =
      .ok (.CreateTable "T" [⟨"NAME", .Varchar 10, []⟩]) := by
  refine ⟨?_, ?_, ?_, by rfl, by rfl, by rfl⟩
  · intro name ts2 hne
    cases ts2 with
    | nil => exact ⟨_, rfl⟩
    | cons t ts3 =>
      cases t <;> try exact ⟨_, rfl⟩
      exact absurd rfl (hne ts3)
  · intro name t ts4 hne
    cases t <;> try exact ⟨_, rfl⟩
    rename_i n
    exact absurd rfl (hne n)
  · intro name n ts4 col r h
    simp only [parse_column_definition, parse_column_definitionAux,
      name_identifier, expect_token] at h
    split at h
    · simp [Except.map] at h
    · rename_i r2 heq
      simp at heq
      subst heq
      split at h
      · simp [Except.map] at h
      · simp [Except.map] at h
        rw [← h.1]
        exact ⟨rfl, rfl⟩

/-- Witness instantiating the three general conjuncts of C8 at concrete
column definitions. -/
theorem claim_c8_varchar_length_witness :
    (∃ msg, parse_column_definition [Token.Identifier "A",
      Token.Keyword .Varchar, Token.Semicolon] =
      .error (.InvalidVarcharLength msg)) ∧
    (∃ msg, parse_column_definition [Token.Identifier "A",
      Token.Keyword .Varchar, Token.LeftParentheses, Token.Identifier "B"] =
      .error (.InvalidVarcharLength msg)) ∧
    (⟨"A", DBType.Varchar 7, []⟩ : TableColumn).column_name = "A" ∧
    (⟨"A", DBType.Varchar 7, []⟩ : TableColumn).column_type =
      DBType.Varchar 7 :=
  ⟨claim_c8_varchar_length.1 "A" [Token.Semicolon]
      (by intro ts3 hq; cases hq),
   claim_c8_varchar_length.2.1 "A" (Token.Identifier "B") []
      (by intro m hq; cases hq),
   claim_c8_varchar_length.2.2.1 "A" 7 [Token.Eof]
      ⟨"A", DBType.Varchar 7, []⟩ [Token.Eof] rfl⟩

/-- C9: `tokenize`, `parse` and their composition `parse_sql` are total: on
every finite input they return either a result or an error.  In this
development totality is established definitionally: each scan and parse
loop is structural recursion on an explicit bound with a proved invariant,
so every call terminates. -/
theorem claim_c9_totality :
    (∀ s : String,
      (∃ toks, tokenize s = .ok toks) ∨ (∃ e, tokenize s = .error e)) ∧
    (∀ ts : List Token,
      (∃ st, parse ts = .ok st) ∨ (∃ e, parse ts = .error e)) ∧
    (∀ s : String,
      (∃ st, parse_sql s = .ok st) ∨ (∃ e, parse_sql s = .error e)) := by
  refine ⟨?_, ?_, ?_⟩
  · intro s
    rcases h : tokenize s with e | toks
    · exact Or.inr ⟨e, rfl⟩
    · exact Or.inl ⟨toks, rfl⟩
  · intro ts
    rcases h : parse ts with e | st
    · exact Or.inr ⟨e, rfl⟩
    · exact Or.inl ⟨st, rfl⟩
  · intro s
    rcases h : parse_sql s with e | st
    · exact Or.inr ⟨e, rfl⟩
    · exact Or.inl ⟨st, rfl⟩

/-- C10: every successful `tokenize` output is well terminated (a single
final `Eof` and no `Eof` elsewhere), and on every well-terminated token
sequence `parse` never returns `UnexpectedEOF`: each premature-end
condition is reported through an error that names the `Eof` token
instead. -/
theorem claim_c10_no_unexpected_eof :
    (∀ (s : String) (toks : List Token), tokenize s = .ok toks →
      wellTerminated toks) ∧
    (∀ ts : List Token, wellTerminated ts →
      ∀ e : Error, parse ts = .error e → e ≠ .UnexpectedEOF) := by
  refine ⟨fun s toks h => tokenize_ok_wellTerminated h, ?_⟩
  intro ts hw e h
  exact parserOkErr_error (parse_noEOF hw) h

/-- Witness instantiating both conjuncts of C10 at concrete inputs. -/
theorem claim_c10_no_unexpected_eof_witness :
    wellTerminated [Token.Number 1, Token.Eof] ∧
    (Error.UnexpectedToken "SELECT or CREATE" "Eof" ≠ Error.UnexpectedEOF) :=
  ⟨claim_c10_no_unexpected_eof.1 "1" [Token.Number 1, Token.Eof] rfl,
   claim_c10_no_unexpected_eof.2 [Token.Eof] (by decide)
     (Error.UnexpectedToken "SELECT or CREATE" "Eof") rfl⟩

end SQL


